import Mathlib

/-!
Verification of the LC-3 virtual machine (tomip01/lc3-vm).

The development shallowly embeds the Rust sources of the interpreter:
`src/lc3/bytes.rs`, `src/lc3/memory.rs`, `src/lc3/opcode.rs`,
`src/lc3/trap.rs` and `src/lc3/vm.rs`.  Machine words (`u16`) are
modelled as `Nat` with explicit `% 65536` where the Rust code uses
wrapping arithmetic; fallible operations return `Except VMError`.
Mutable state (`&mut self` together with stdin/stdout) is modelled by
explicit state passing through the type `M` below, whose results carry
the state also on the error path, exactly as a Rust `&mut self` method
leaves its mutations visible when it returns `Err`.

The file `src/lc3/instructions.rs` is a dead earlier revision of the
instruction bodies (its methods would collide with the ones in
`src/lc3/vm.rs`); the embedding follows `src/lc3/vm.rs`, which uses
wrapping addition for all PC/address offsets.
-/

/-- Error type of the interpreter, from `VMError` in `src/lc3/vm.rs`. -/
inductive VMError where
  | ReadingFile : String → VMError
  | ConcatenatingBytes : String → VMError
  | Overflow : VMError
  | MemoryIndex : String → VMError
  | InvalidOpcode : VMError
  | InvalidRegister : VMError
  | InvalidTrapCode : VMError
  | StandardIO : String → VMError
  | InvalidCharacter : VMError
deriving DecidableEq

/-- Condition flag, from `ConditionFlag` in `src/lc3/vm.rs`. -/
inductive ConditionFlag where
  | Pos
  | Zro
  | Neg
deriving DecidableEq

/-- Embedding of `sign_extend` from `src/lc3/bytes.rs`.

The Rust code is
`let last_bit_position = bit_count.checked_sub(1).ok_or(VMError::Overflow)?;`
followed by `if (value >> last_bit_position & 1) == 1 { value |= 0xFFFF << bit_count; }`.
The shift `0xFFFF << bit_count` is a `u16` shift: Rust reduces the shift
amount modulo 16 when it reaches 16 (release profile; a debug build
panics there), and the bits shifted above bit 15 are discarded, hence
the `% 16` on the amount and the `% 65536` on the shifted mask. -/
def sign_extend (value : Nat) (bit_count : Nat) : Except VMError Nat :=
  if bit_count = 0 then .error .Overflow
  else
    let last_bit_position := bit_count - 1
    if (value >>> last_bit_position) &&& 1 = 1 then
      .ok (value ||| ((65535 <<< (bit_count % 16)) % 65536))
    else
      .ok value

/-- Modelled from the spec: the value described by the sentence "take the
low `n` bits of `v`, interpret them as an `n`-bit two's-complement
integer, and cast that integer to 16 bits".  Used only to compare the
code's `sign_extend` against the specified mapping. -/
def sign_extend_spec (v n : Nat) : Nat :=
  let low := v % 2 ^ n
  if low < 2 ^ (n - 1) then low else (low + (65536 - 2 ^ n)) % 65536

/-- Embedding of `concatenate_bytes` from `src/lc3/bytes.rs`: big-endian
composition of exactly two bytes. -/
def concatenate_bytes (bytes : List Nat) : Except VMError Nat :=
  if bytes.length ≠ 2 then
    .error (.ConcatenatingBytes ("Image file is not made from words of 16 bits"))
  else
    match bytes.head? with
    | none => .error (.ConcatenatingBytes ("Non existing first byte"))
    | some first_byte =>
      match bytes.get? 1 with
      | none => .error (.ConcatenatingBytes ("Non existing second byte"))
      | some second_byte => .ok (first_byte * 256 + second_byte)

/-- Keyboard status register address, `MR_KBSR` in `src/lc3/memory.rs`. -/
def MR_KBSR : Nat := 0xFE00

/-- Keyboard data register address, `MR_KBDR` in `src/lc3/memory.rs`. -/
def MR_KBDR : Nat := 0xFE02

/-- Memory size, `MEMORY_MAX = 1 << 16` in `src/lc3/memory.rs`. -/
def MEMORY_MAX : Nat := 65536

/-- The 65,536-cell memory of `src/lc3/memory.rs`, as a function from
addresses to stored words; cells at indices `≥ MEMORY_MAX` are never
readable or writable (the Rust array has exactly `MEMORY_MAX` cells). -/
structure Memory where
  mem : Nat → Nat

/-- Embedding of `Memory::mem_write`: unconditional store, failing with
`MemoryIndex` when the index is outside the array. -/
def Memory.mem_write (m : Memory) (value : Nat) (index : Nat) : Except VMError Memory :=
  if index < MEMORY_MAX then
    .ok ⟨fun j => if j = index then value else m.mem j⟩
  else
    .error (.MemoryIndex ("Index out of bound when writing memory"))

/-- Embedding of `Memory::check_key`: block-read one byte from the host
input (an error when no byte can be read, as `read_exact` fails at end
of input); a nonzero byte stores `1 << 15` into `MR_KBSR` and the byte
into `MR_KBDR`, a zero byte stores `0` into `MR_KBSR`. -/
def Memory.check_key (m : Memory) (input : List Nat) :
    Except VMError (Memory × List Nat) :=
  match input with
  | [] => .error ( VMError.StandardIO ("Cannot read from Standard Input"))
  | b :: rest =>
    if b ≠ 0 then do
      let m1 ← m.mem_write 32768 MR_KBSR
      let m2 ← m1.mem_write b MR_KBDR
      .ok (m2, rest)
    else do
      let m1 ← m.mem_write 0 MR_KBSR
      .ok (m1, rest)

/-- Embedding of `Memory::mem_read`: a read at `MR_KBSR` first runs
`check_key`, then the (possibly updated) cell is returned; an index
outside the array fails with `MemoryIndex`. -/
def Memory.mem_read (m : Memory) (index : Nat) (input : List Nat) :
    Except VMError (Nat × Memory × List Nat) := do
  let (m', input') ← if index = MR_KBSR then m.check_key input else .ok (m, input)
  if index < MEMORY_MAX then
    .ok (m'.mem index, m', input')
  else
    .error (.MemoryIndex ("Invalid out of bounds when reading from memory"))

/-- Chunks of exactly two, as produced by `bytes.chunks_exact(2)` in
`Memory::read_image_bytes`: a trailing odd byte is dropped. -/
def chunksExact2 : List Nat → List (List Nat)
  | a :: b :: rest => [a, b] :: chunksExact2 rest
  | _ => []

/-- Concatenation of every chunk after the origin, as the first `for`
loop of `Memory::read_image_bytes` collects them. -/
def collectWords : List (List Nat) → Except VMError (List Nat)
  | [] => .ok []
  | c :: cs => do
    let w ← concatenate_bytes c
    let ws ← collectWords cs
    .ok (w :: ws)

/-- The second `for` loop of `Memory::read_image_bytes`: the word with
enumeration index `i` is written to `i + origin` (the `usize` sum
`i.checked_add(origin)` cannot overflow for these operands and is
modelled as plain addition; `mem_write` still bound-checks it). -/
def Memory.load_words (m : Memory) (origin : Nat) :
    List Nat → Nat → Except VMError Memory
  | [], _ => .ok m
  | w :: ws, i => do
    let m' ← m.mem_write w (i + origin)
    m'.load_words origin ws (i + 1)

/-- Embedding of `Memory::read_image_bytes`: the first two-byte chunk is
the origin, the remaining chunks are words stored from `origin` on. -/
def Memory.read_image_bytes (m : Memory) (bytes : List Nat) : Except VMError Memory :=
  match chunksExact2 bytes with
  | [] => .error (.ConcatenatingBytes ("No valid origin position from image"))
  | c0 :: rest => do
    let origin ← concatenate_bytes c0
    let collected ← collectWords rest
    m.load_words origin collected 0

/-- Big-endian byte pair of a 16-bit word, as in the image format (the
inverse of `concatenate_bytes` on words below `2 ^ 16`). -/
def toBE (w : Nat) : List Nat := [w / 256, w % 256]

/-- Image built from an origin word followed by data words, each encoded
big-endian, as in the round-trip property of the spec. -/
def imageBytes (origin : Nat) (ws : List Nat) : List Nat :=
  toBE origin ++ (ws.map toBE).flatten

deriving instance DecidableEq for Except

-- Basic bit-level helper lemmas used by the sign-extension proofs.

lemma lor_high_eq_add {n a v : Nat} (hv : v < 2 ^ n) :
    v ||| 2 ^ n * a = 2 ^ n * a + v := by
  apply Nat.eq_of_testBit_eq
  intro i
  rcases Nat.lt_or_ge i n with hi | hi
  · have hm : Nat.testBit (2 ^ n * a) i = false := by
      rw [Nat.mul_comm, ← Nat.shiftLeft_eq, Nat.testBit_shiftLeft]
      simp [Nat.not_le_of_lt hi]
    have hsum : Nat.testBit (2 ^ n * a + v) i = Nat.testBit v i := by
      have h1 : (2 ^ n * a + v) % 2 ^ n = v := by
        rw [Nat.mul_add_mod, Nat.mod_eq_of_lt hv]
      have h2 := Nat.testBit_mod_two_pow (2 ^ n * a + v) n i
      rw [h1] at h2
      simp [hi] at h2
      exact h2.symm
    rw [Nat.testBit_lor, hm, hsum, Bool.or_false]
  · have hv' : Nat.testBit v i = false :=
      Nat.testBit_lt_two_pow (Nat.lt_of_lt_of_le hv (Nat.pow_le_pow_right (by omega) hi))
    have hdiv : (2 ^ n * a + v) / 2 ^ n = a := by
      rw [Nat.mul_add_div (Nat.two_pow_pos n), Nat.div_eq_of_lt hv]
      omega
    have hm : Nat.testBit (2 ^ n * a) i = Nat.testBit a (i - n) := by
      rw [Nat.mul_comm, ← Nat.shiftLeft_eq, Nat.testBit_shiftLeft]
      simp [hi]
    rw [← Nat.shiftRight_eq_div_pow] at hdiv
    have hsum : Nat.testBit (2 ^ n * a + v) i = Nat.testBit a (i - n) := by
      have h6 : Nat.testBit (2 ^ n * a + v) i
          = Nat.testBit ((2 ^ n * a + v) >>> n) (i - n) := by
        rw [Nat.testBit_shiftRight]
        congr 1
        omega
      rw [h6, hdiv]
    rw [Nat.testBit_lor, hm, hsum, hv', Bool.false_or]

lemma mask_shift_eq (n : Nat) (h1 : 1 ≤ n) (h2 : n ≤ 15) :
    (65535 <<< (n % 16)) % 65536 = 65536 - 2 ^ n := by
  have hmod : n % 16 = n := Nat.mod_eq_of_lt (by omega)
  rw [hmod, Nat.shiftLeft_eq]
  have hp : 2 ^ n ≤ 32768 := by
    calc 2 ^ n ≤ 2 ^ 15 := Nat.pow_le_pow_right (by omega) h2
    _ = 32768 := by norm_num
  have hp1 : 1 ≤ 2 ^ n := Nat.one_le_two_pow
  omega

lemma pow_split_65536 (n : Nat) (h2 : n ≤ 15) :
    65536 - 2 ^ n = 2 ^ n * (2 ^ (16 - n) - 1) := by
  have hmul : 2 ^ n * 2 ^ (16 - n) = 65536 := by
    rw [← Nat.pow_add]
    have h : n + (16 - n) = 16 := by omega
    rw [h]
  rw [Nat.mul_sub_one, hmul]

/-- CLAIM C1 (counterexample).  The claim fails already at `v = 32`,
`n = 5`: the low five bits of `32` are zero, so the specified result is
`0`, but the code does not mask the bits of `value` above `bit_count`
and returns `32` unchanged. -/
theorem c1_counterexample :
    sign_extend 32 5 ≠ .ok (sign_extend_spec 32 5) := by decide

/-- CLAIM C1 (amended).  For `n ∈ 1..=15` and a value whose bits above
the low `n` are all zero, `sign_extend` returns exactly the 16-bit
two's-complement sign extension of the low `n` bits. -/
theorem c1_sign_extend_amended (v n : Nat) (h1 : 1 ≤ n) (h2 : n ≤ 15)
    (hv : v < 2 ^ n) :
    sign_extend v n = .ok (sign_extend_spec v n) := by
  obtain ⟨m, rfl⟩ : ∃ m, n = m + 1 := ⟨n - 1, by omega⟩
  have hpow : (2 : Nat) ^ (m + 1) = 2 * 2 ^ m := by rw [Nat.pow_succ]; ring
  have hone : 1 ≤ v / 2 ^ m ↔ 2 ^ m ≤ v := by
    rw [Nat.le_div_iff_mul_le (Nat.two_pow_pos m), Nat.one_mul]
  have hlt2 : v / 2 ^ m < 2 :=
    (Nat.div_lt_iff_lt_mul (Nat.two_pow_pos m)).mpr (by omega)
  have hbit : ((v >>> m) &&& 1 = 1) ↔ 2 ^ m ≤ v := by
    rw [Nat.and_one_is_mod, Nat.shiftRight_eq_div_pow, ← hone]
    generalize v / 2 ^ m = e at hlt2 ⊢
    omega
  have hlow : v % 2 ^ (m + 1) = v := Nat.mod_eq_of_lt hv
  have hple : 2 ^ (m + 1) ≤ 65536 := by
    calc 2 ^ (m + 1) ≤ 2 ^ 15 := Nat.pow_le_pow_right (by omega) (by omega)
    _ ≤ 65536 := by norm_num
  simp only [sign_extend, sign_extend_spec, Nat.add_sub_cancel, Nat.succ_ne_zero,
    if_false, hlow]
  by_cases hge : 2 ^ m ≤ v
  · rw [if_pos (hbit.mpr hge), if_neg (by omega),
      mask_shift_eq (m + 1) (by omega) (by omega),
      pow_split_65536 (m + 1) (by omega), lor_high_eq_add hv,
      ← pow_split_65536 (m + 1) (by omega)]
    have hfit : v + (65536 - 2 ^ (m + 1)) < 65536 := by omega
    rw [Nat.mod_eq_of_lt hfit, Nat.add_comm]
  · rw [if_neg (fun hc => hge (hbit.mp hc)), if_pos (by omega)]

/-- CLAIM C1 (witness for the amended theorem), at `v = 16`, `n = 5`:
the sign bit is set, and the result is `0xFFF0`. -/
theorem c1_witness :
    1 ≤ 5 ∧ 5 ≤ 15 ∧ 16 < 2 ^ 5 ∧ sign_extend 16 5 = .ok (sign_extend_spec 16 5) :=
  ⟨by decide, by decide, by decide, c1_sign_extend_amended 16 5 (by decide) (by decide) (by decide)⟩

/-- Full machine state: the `VM` struct of `src/lc3/vm.rs` (eight
registers as a function checked at 8 by the accessors, program counter,
condition flag, running flag, memory) together with the host byte
channels (stdin as the list of bytes still to be read, stdout as the
list of bytes written so far). -/
structure St where
  registers : Nat → Nat
  pc : Nat
  cond : ConditionFlag
  running : Bool
  memory : Memory
  input : List Nat
  output : List Nat

/-- Computation on the machine state: a Rust `&mut self` method
returning `Result`.  The state component of the result is kept also on
the error path, exactly as mutations through `&mut self` survive an
early `return Err`. -/
def M (α : Type) : Type := St → Except VMError α × St

def M.pure {α : Type} (a : α) : M α := fun s => (.ok a, s)

def M.bind {α β : Type} (x : M α) (f : α → M β) : M β := fun s =>
  match x s with
  | (.ok a, s') => f a s'
  | (.error e, s') => (.error e, s')

instance : Monad M where
  pure := M.pure
  bind := M.bind

/-- Raise a `VMError`, keeping the state (an early `return Err`). -/
def throwE {α : Type} (e : VMError) : M α := fun s => (.error e, s)

/-- Lift a pure fallible computation (no state access). -/
def liftE {α : Type} (x : Except VMError α) : M α := fun s => (x, s)

/-- Embedding of `VM::get_register`: the value of register
`register_index`, failing with `InvalidRegister` outside `0..=7`. -/
def getRegister (register_index : Nat) : M Nat := fun s =>
  if register_index < 8 then (.ok (s.registers register_index), s)
  else (.error .InvalidRegister, s)

/-- Embedding of `VM::set_register`: store `value` in the register,
failing with `InvalidRegister` outside `0..=7`. -/
def setRegister (register_index : Nat) (value : Nat) : M Unit := fun s =>
  if register_index < 8 then
    (.ok (), { s with registers := fun j => if j = register_index then value else s.registers j })
  else (.error .InvalidRegister, s)

/-- Store a condition flag. -/
def setCond (c : ConditionFlag) : M Unit := fun s => (.ok (), { s with cond := c })

/-- Set the running flag. -/
def setRunning (b : Bool) : M Unit := fun s => (.ok (), { s with running := b })

/-- Read the current program counter (an access to `self.pc`). -/
def getPc : M Nat := fun s => (.ok s.pc, s)

/-- Store a program counter value (an assignment to `self.pc`). -/
def setPc (v : Nat) : M Unit := fun s => (.ok (), { s with pc := v })

/-- Read the current condition flag (an access to `self.cond`). -/
def getCond : M ConditionFlag := fun s => (.ok s.cond, s)

/-- Condition flag computed from a register value, as the `if` chain of
`VM::update_flags` computes it. -/
def flagCode (value : Nat) : ConditionFlag :=
  if value = 0 then .Zro
  else if value >>> 15 = 1 then .Neg
  else .Pos

/-- Embedding of `VM::update_flags`. -/
def updateFlags (register_index : Nat) : M Unit := do
  let value ← getRegister register_index
  setCond (flagCode value)

/-- Embedding of `VM::mem_read` (delegating to `Memory::mem_read`, which
may consume host input at the keyboard status address). -/
def memRead (index : Nat) : M Nat := fun s =>
  match s.memory.mem_read index s.input with
  | .ok (v, m', input') => (.ok v, { s with memory := m', input := input' })
  | .error e => (.error e, s)

/-- Embedding of `VM::mem_write` (delegating to `Memory::mem_write`). -/
def memWrite (value : Nat) (index : Nat) : M Unit := fun s =>
  match s.memory.mem_write value index with
  | .ok m' => (.ok (), { s with memory := m' })
  | .error e => (.error e, s)

/-- Append one byte to the host output (a `print!` of one character). -/
def printByte (b : Nat) : M Unit := fun s => (.ok (), { s with output := s.output ++ [b] })

/-- Append a byte string to the host output (a `print!`/`println!` of a
fixed string). -/
def printString (str : List Nat) : M Unit := fun s =>
  (.ok (), { s with output := s.output ++ str })

/-- Flush of stdout; modelled as always succeeding. -/
def flushOut : M Unit := fun s => (.ok (), s)

/-- Blocking read of exactly one byte from the host input, as
`stdin().read_exact` on a one-byte buffer; fails with a StandardIO error when
no byte is available. -/
def readByte : M Nat := fun s =>
  match s.input with
  | [] => (.error ( VMError.StandardIO ("Cannot read from Standard Input")), s)
  | b :: rest => (.ok b, { s with input := rest })

/-- Opcode tags, from the `Opcode` enum in `src/lc3/opcode.rs`. -/
inductive Opcode where
  | BR
  | Add
  | LD
  | ST
  | Jsr
  | And
  | Ldr
  | Str
  | Rti
  | Not
  | Ldi
  | Sti
  | Jmp
  | Res
  | Lea
  | Trap
deriving DecidableEq

/-- Embedding of `TryFrom<u16> for Opcode`: the match on the 4-bit
opcode field (any other value falls through to `InvalidOpcode`). -/
def Opcode.tryFrom (value : Nat) : Except VMError Opcode :=
  if value = 0 then .ok .BR
  else if value = 1 then .ok .Add
  else if value = 2 then .ok .LD
  else if value = 3 then .ok .ST
  else if value = 4 then .ok .Jsr
  else if value = 5 then .ok .And
  else if value = 6 then .ok .Ldr
  else if value = 7 then .ok .Str
  else if value = 8 then .ok .Rti
  else if value = 9 then .ok .Not
  else if value = 10 then .ok .Ldi
  else if value = 11 then .ok .Sti
  else if value = 12 then .ok .Jmp
  else if value = 13 then .ok .Res
  else if value = 14 then .ok .Lea
  else if value = 15 then .ok .Trap
  else .error .InvalidOpcode

/-- Trap routine tags, from the `TrapCode` enum in `src/lc3/trap.rs`. -/
inductive TrapCode where
  | Getc
  | Out
  | Puts
  | IN
  | Putsp
  | Halt
deriving DecidableEq

/-- Embedding of `TryFrom<u16> for TrapCode`: the match on the low byte
of a TRAP instruction (any other value fails with `InvalidTrapCode`). -/
def TrapCode.tryFrom (value : Nat) : Except VMError TrapCode :=
  if value = 0x20 then .ok .Getc
  else if value = 0x21 then .ok .Out
  else if value = 0x22 then .ok .Puts
  else if value = 0x23 then .ok .IN
  else if value = 0x24 then .ok .Putsp
  else if value = 0x25 then .ok .Halt
  else .error .InvalidTrapCode

/-- Embedding of `VM::add` (`src/lc3/vm.rs`): register or immediate
addition with wrapping, then `update_flags`. -/
def VM.add (instr : Nat) : M Unit := do
  let immediate_flag := (instr >>> 5) &&& 1
  let r0 := (instr >>> 9) &&& 7
  let r1 := (instr >>> 6) &&& 7
  let value_in_r1 ← getRegister r1
  if immediate_flag = 1 then
    let imm5 ← liftE (sign_extend (instr &&& 31) 5)
    setRegister r0 ((value_in_r1 + imm5) % 65536)
  else
    let r2 := instr &&& 7
    let value_in_r2 ← getRegister r2
    setRegister r0 ((value_in_r1 + value_in_r2) % 65536)
  updateFlags r0

/-- Embedding of `VM::and` (`src/lc3/vm.rs`). -/
def VM.and (instr : Nat) : M Unit := do
  let immediate_flag := (instr >>> 5) &&& 1
  let r0 := (instr >>> 9) &&& 7
  let r1 := (instr >>> 6) &&& 7
  let value_in_r1 ← getRegister r1
  if immediate_flag = 1 then
    let imm5 ← liftE (sign_extend (instr &&& 31) 5)
    setRegister r0 (value_in_r1 &&& imm5)
  else
    let r2 := instr &&& 7
    let value_in_r2 ← getRegister r2
    setRegister r0 (value_in_r1 &&& value_in_r2)
  updateFlags r0

/-- Embedding of `VM::not` (`src/lc3/vm.rs`): the Rust `!` on `u16`
flips the sixteen bits, i.e. xor with `0xFFFF`. -/
def VM.not (instr : Nat) : M Unit := do
  let r0 := (instr >>> 9) &&& 7
  let r1 := (instr >>> 6) &&& 7
  let value_in_r1 ← getRegister r1
  setRegister r0 (value_in_r1 ^^^ 65535)
  updateFlags r0

/-- Condition test of `VM::br`: the mask bit selected by the current
flag. -/
def meetCondition (c : ConditionFlag) (cond_flag_instr : Nat) : Nat :=
  match c with
  | .Neg => cond_flag_instr &&& 4
  | .Zro => cond_flag_instr &&& 2
  | .Pos => cond_flag_instr &&& 1

/-- Embedding of `VM::br` (`src/lc3/vm.rs`): conditional branch with
wrapping PC-relative offset. -/
def VM.br (instr : Nat) : M Unit := do
  let pc_offset ← liftE (sign_extend (instr &&& 511) 9)
  let cond_flag_instr := (instr >>> 9) &&& 7
  let c ← getCond
  if meetCondition c cond_flag_instr ≠ 0 then
    let pcv ← getPc
    setPc ((pcv + pc_offset) % 65536)
  else
    M.pure ()

/-- Embedding of `VM::jmp` (`src/lc3/vm.rs`). -/
def VM.jmp (instr : Nat) : M Unit := do
  let r1 := (instr >>> 6) &&& 7
  let value_in_r1 ← getRegister r1
  setPc value_in_r1

/-- Embedding of `VM::jsr` (`src/lc3/vm.rs`): R7 gets the current PC,
then either a wrapping long offset or a register target. -/
def VM.jsr (instr : Nat) : M Unit := do
  let long_flag := (instr >>> 11) &&& 1
  let pcv ← getPc
  setRegister 7 pcv
  if long_flag = 1 then
    let long_pc_offset ← liftE (sign_extend (instr &&& 2047) 11)
    let pcv2 ← getPc
    setPc ((pcv2 + long_pc_offset) % 65536)
  else
    let r1 := (instr >>> 6) &&& 7
    let value_in_r1 ← getRegister r1
    setPc value_in_r1

/-- Embedding of `VM::lea` (`src/lc3/vm.rs`). -/
def VM.lea (instr : Nat) : M Unit := do
  let r0 := (instr >>> 9) &&& 7
  let pc_offset ← liftE (sign_extend (instr &&& 511) 9)
  let pcv ← getPc
  setRegister r0 ((pcv + pc_offset) % 65536)
  updateFlags r0

/-- Embedding of `VM::ld` (`src/lc3/vm.rs`). -/
def VM.ld (instr : Nat) : M Unit := do
  let r0 := (instr >>> 9) &&& 7
  let pc_offset ← liftE (sign_extend (instr &&& 511) 9)
  let pcv ← getPc
  let value_read ← memRead ((pcv + pc_offset) % 65536)
  setRegister r0 value_read
  updateFlags r0

/-- Embedding of `VM::ldr` (`src/lc3/vm.rs`). -/
def VM.ldr (instr : Nat) : M Unit := do
  let r0 := (instr >>> 9) &&& 7
  let r1 := (instr >>> 6) &&& 7
  let value_in_r1 ← getRegister r1
  let pc_offset ← liftE (sign_extend (instr &&& 63) 6)
  let value_read ← memRead ((value_in_r1 + pc_offset) % 65536)
  setRegister r0 value_read
  updateFlags r0

/-- Embedding of `VM::ldi` (`src/lc3/vm.rs`). -/
def VM.ldi (instr : Nat) : M Unit := do
  let r0 := (instr >>> 9) &&& 7
  let pc_offset ← liftE (sign_extend (instr &&& 511) 9)
  let pcv ← getPc
  let value_read ← memRead ((pcv + pc_offset) % 65536)
  let value ← memRead value_read
  setRegister r0 value
  updateFlags r0

/-- Embedding of `VM::st` (`src/lc3/vm.rs`). -/
def VM.st (instr : Nat) : M Unit := do
  let r0 := (instr >>> 9) &&& 7
  let value_in_r0 ← getRegister r0
  let pc_offset ← liftE (sign_extend (instr &&& 511) 9)
  let pcv ← getPc
  memWrite value_in_r0 ((pcv + pc_offset) % 65536)

/-- Embedding of `VM::sti` (`src/lc3/vm.rs`). -/
def VM.sti (instr : Nat) : M Unit := do
  let r0 := (instr >>> 9) &&& 7
  let value_in_r0 ← getRegister r0
  let pc_offset ← liftE (sign_extend (instr &&& 511) 9)
  let pcv ← getPc
  let value_read ← memRead ((pcv + pc_offset) % 65536)
  memWrite value_in_r0 value_read

/-- Embedding of `VM::str` (`src/lc3/vm.rs`). -/
def VM.str (instr : Nat) : M Unit := do
  let r0 := (instr >>> 9) &&& 7
  let value_in_r0 ← getRegister r0
  let r1 := (instr >>> 6) &&& 7
  let value_in_r1 ← getRegister r1
  let pc_offset ← liftE (sign_extend (instr &&& 63) 6)
  memWrite value_in_r0 ((value_in_r1 + pc_offset) % 65536)

/-- Embedding of `VM::getc` (`src/lc3/vm.rs`): one byte from stdin into
R0 (zero-extended), then `update_flags(0)`. -/
def VM.getc : M Unit := do
  let b ← readByte
  setRegister 0 b
  updateFlags 0

/-- Embedding of `VM::out` (`src/lc3/vm.rs`): the `u8` narrowing of R0
fails with `InvalidCharacter` for values above 255, otherwise the byte
is printed and stdout flushed. -/
def VM.out : M Unit := do
  let value ← getRegister 0
  if 256 ≤ value then throwE .InvalidCharacter
  else do
    printByte value
    flushOut

/-- Loop of `VM::puts`: while the current word is nonzero, narrow it to
a byte (`InvalidCharacter` above 255), print it, step the address with
`checked_add(1)` (`MemoryIndex` past `0xFFFF`), and read the next word. -/
def putsLoop (address : Nat) (char_memory : Nat) : M Unit :=
  if char_memory = 0 then M.pure ()
  else if 256 ≤ char_memory then throwE .InvalidCharacter
  else do
    printByte char_memory
    if h : address < 65535 then do
      let next ← memRead (address + 1)
      putsLoop (address + 1) next
    else
      throwE (.MemoryIndex ("String too long"))
termination_by 65536 - address
decreasing_by omega

/-- Embedding of `VM::puts` (`src/lc3/vm.rs`): walk memory from the
address in R0 until a zero word, printing each word's low byte. -/
def VM.puts : M Unit := do
  let address ← getRegister 0
  let char_memory ← memRead address
  putsLoop address char_memory
  flushOut

/-- Embedding of `VM::in_trap` (`src/lc3/vm.rs`): prompt, one byte from
stdin into R0, echo, `update_flags(0)`, flush. -/
def VM.in_trap : M Unit := do
  printString (("Enter a character: ".data.map Char.toNat) ++ [10])
  let b ← readByte
  setRegister 0 b
  printByte b
  updateFlags 0
  flushOut

/-- Loop of `VM::putsp`: while the current word is nonzero, print its
low byte then its high byte (each via the same fallible `u8` narrowing
as in `puts`), then step the address with `checked_add(1)`. -/
def putspLoop (address : Nat) (char_memory : Nat) : M Unit :=
  if char_memory = 0 then M.pure ()
  else if 256 ≤ char_memory &&& 255 then throwE .InvalidCharacter
  else do
    printByte (char_memory &&& 255)
    if 256 ≤ char_memory >>> 8 then throwE .InvalidCharacter
    else do
      printByte (char_memory >>> 8)
      if h : address < 65535 then do
        let next ← memRead (address + 1)
        putspLoop (address + 1) next
      else
        throwE (.MemoryIndex ("String too long"))
termination_by 65536 - address
decreasing_by omega

/-- Embedding of `VM::putsp` (`src/lc3/vm.rs`). -/
def VM.putsp : M Unit := do
  let address ← getRegister 0
  let char_memory ← memRead address
  putspLoop address char_memory
  flushOut

/-- Embedding of `VM::halt` (`src/lc3/vm.rs`): print "HALT" with a
newline, flush, stop the machine. -/
def VM.halt : M Unit := do
  printString (("HALT".data.map Char.toNat) ++ [10])
  flushOut
  setRunning false

/-- Embedding of `VM::trap` (`src/lc3/vm.rs`): R7 is overwritten with
the current PC *before* the trap vector is decoded, so an invalid
vector fails with `InvalidTrapCode` only after R7 has been clobbered. -/
def VM.trap (instr : Nat) : M Unit := do
  let pcv ← getPc
  setRegister 7 pcv
  let trap_code ← liftE (TrapCode.tryFrom (instr &&& 255))
  match trap_code with
  | .Getc => VM.getc
  | .Out => VM.out
  | .Puts => VM.puts
  | .IN => VM.in_trap
  | .Putsp => VM.putsp
  | .Halt => VM.halt

/-- Embedding of `VM::execute` (`src/lc3/vm.rs`): decode the top four
bits and dispatch (`Rti` and `Res` fail with `InvalidOpcode`). -/
def VM.execute (instr : Nat) : M Unit := do
  let op ← liftE (Opcode.tryFrom (instr >>> 12))
  match op with
  | .BR => VM.br instr
  | .Add => VM.add instr
  | .LD => VM.ld instr
  | .ST => VM.st instr
  | .Jsr => VM.jsr instr
  | .And => VM.and instr
  | .Ldr => VM.ldr instr
  | .Str => VM.str instr
  | .Rti => throwE .InvalidOpcode
  | .Not => VM.not instr
  | .Ldi => VM.ldi instr
  | .Sti => VM.sti instr
  | .Jmp => VM.jmp instr
  | .Res => throwE .InvalidOpcode
  | .Lea => VM.lea instr
  | .Trap => VM.trap instr

/-- One iteration of the `while self.running` loop in `VM::run`
(`src/lc3/vm.rs`): fetch the instruction at PC, increment PC with
`checked_add(1)` (a `u16` overflow fails with `MemoryIndex("PC out of
bounds")`), then execute. -/
def incrementPc : M Unit := fun s =>
  if s.pc + 1 ≤ 65535 then (.ok (), { s with pc := s.pc + 1 })
  else (.error (.MemoryIndex ("PC out of bounds")), s)

def VM.step : M Unit := do
  let pcv ← getPc
  let instr ← memRead pcv
  incrementPc
  VM.execute instr

-- Plumbing lemmas: evaluation of monadic computations one step at a time.

lemma M.bind_ok {α β : Type} {x : M α} {f : α → M β} {s t : St} {a : α}
    (h : x s = (.ok a, t)) : (x >>= f) s = f a t := by
  show M.bind x f s = f a t
  unfold M.bind
  rw [h]

lemma M.bind_err {α β : Type} {x : M α} {f : α → M β} {s t : St} {e : VMError}
    (h : x s = (.error e, t)) : (x >>= f) s = (.error e, t) := by
  show M.bind x f s = (.error e, t)
  unfold M.bind
  rw [h]

lemma M.pure_apply {α : Type} (a : α) (s : St) : (pure a : M α) s = (.ok a, s) := rfl

lemma throwE_apply {α : Type} (e : VMError) (s : St) : (throwE e : M α) s = (.error e, s) := rfl

lemma liftE_apply {α : Type} (x : Except VMError α) (s : St) : liftE x s = (x, s) := rfl

lemma getRegister_apply {i : Nat} (s : St) (h : i < 8) :
    getRegister i s = (.ok (s.registers i), s) := by
  unfold getRegister
  rw [if_pos h]

lemma setRegister_apply {i : Nat} (v : Nat) (s : St) (h : i < 8) :
    setRegister i v s =
      (.ok (), { s with registers := fun j => if j = i then v else s.registers j }) := by
  unfold setRegister
  rw [if_pos h]

lemma setCond_apply (c : ConditionFlag) (s : St) :
    setCond c s = (.ok (), { s with cond := c }) := rfl

lemma setRunning_apply (b : Bool) (s : St) :
    setRunning b s = (.ok (), { s with running := b }) := rfl

lemma updateFlags_apply {i : Nat} (s : St) (h : i < 8) :
    updateFlags i s = (.ok (), { s with cond := flagCode (s.registers i) }) := by
  unfold updateFlags
  rw [M.bind_ok (getRegister_apply s h)]
  rfl

lemma printByte_apply (b : Nat) (s : St) :
    printByte b s = (.ok (), { s with output := s.output ++ [b] }) := rfl

lemma printString_apply (str : List Nat) (s : St) :
    printString str s = (.ok (), { s with output := s.output ++ str }) := rfl

lemma flushOut_apply (s : St) : flushOut s = (.ok (), s) := rfl

lemma readByte_nil {s : St} (h : s.input = []) :
    readByte s = (.error ( VMError.StandardIO ("Cannot read from Standard Input")), s) := by
  unfold readByte
  rw [h]

lemma readByte_cons {s : St} {b : Nat} {rest : List Nat} (h : s.input = b :: rest) :
    readByte s = (.ok b, { s with input := rest }) := by
  unfold readByte
  rw [h]

lemma getPc_apply (s : St) : getPc s = (.ok s.pc, s) := rfl

lemma setPc_apply (v : Nat) (s : St) : setPc v s = (.ok (), { s with pc := v }) := rfl

lemma getCond_apply (s : St) : getCond s = (.ok s.cond, s) := rfl

lemma incrementPc_lt {s : St} (h : s.pc < 65535) :
    incrementPc s = (.ok (), { s with pc := s.pc + 1 }) := by
  unfold incrementPc
  rw [if_pos (by omega)]

lemma incrementPc_max {s : St} (h : s.pc = 65535) :
    incrementPc s = (.error (.MemoryIndex ("PC out of bounds")), s) := by
  unfold incrementPc
  rw [if_neg (by omega)]

-- Evaluation lemmas for memory reads.

lemma mem_write_lt (m : Memory) (v i : Nat) (h : i < 65536) :
    m.mem_write v i = .ok ⟨fun j => if j = i then v else m.mem j⟩ := by
  unfold Memory.mem_write
  rw [if_pos (by simpa [MEMORY_MAX] using h)]

lemma mem_read_pure (m : Memory) (i : Nat) (input : List Nat)
    (hne : i ≠ MR_KBSR) (hlt : i < 65536) :
    m.mem_read i input = .ok (m.mem i, m, input) := by
  unfold Memory.mem_read
  rw [if_neg hne]
  show Except.bind (Except.ok (m, input)) _ = _
  rw [Except.bind]
  exact if_pos (by simpa [MEMORY_MAX] using hlt)

lemma memRead_pure {i : Nat} (s : St) (hne : i ≠ MR_KBSR) (hlt : i < 65536) :
    memRead i s = (.ok (s.memory.mem i), s) := by
  unfold memRead
  rw [mem_read_pure s.memory i s.input hne hlt]

/-- Keyboard probe with a nonzero byte available. -/
lemma check_key_pos (m : Memory) {b : Nat} (rest : List Nat) (hb : b ≠ 0) :
    m.check_key (b :: rest) =
      .ok (⟨fun j => if j = MR_KBDR then b else if j = MR_KBSR then 32768 else m.mem j⟩, rest) := by
  unfold Memory.check_key
  dsimp only
  rw [if_pos hb]
  rw [mem_write_lt m 32768 MR_KBSR (by norm_num [MR_KBSR])]
  show Except.bind _ _ = _
  rw [Except.bind]
  rw [mem_write_lt _ b MR_KBDR (by norm_num [MR_KBDR])]
  show Except.bind _ _ = _
  rw [Except.bind]

/-- Keyboard probe with a zero byte available. -/
lemma check_key_zero (m : Memory) (rest : List Nat) :
    m.check_key (0 :: rest) =
      .ok (⟨fun j => if j = MR_KBSR then 0 else m.mem j⟩, rest) := by
  unfold Memory.check_key
  dsimp only
  rw [if_neg (by simp)]
  rw [mem_write_lt m 0 MR_KBSR (by norm_num [MR_KBSR])]
  show Except.bind _ _ = _
  rw [Except.bind]

/-- Keyboard probe with no byte available. -/
lemma check_key_nil (m : Memory) :
    m.check_key [] = .error ( VMError.StandardIO ("Cannot read from Standard Input")) := rfl

/-- Keyboard-status read with a nonzero byte available: `0x8000` is
stored at `MR_KBSR`, the byte at `MR_KBDR`, and the updated status word
is returned. -/
lemma memRead_kbsr_pos {s : St} {b : Nat} {rest : List Nat}
    (h : s.input = b :: rest) (hb : b ≠ 0) :
    memRead MR_KBSR s =
      (.ok 32768,
        { s with
          memory := ⟨fun j => if j = MR_KBDR then b else if j = MR_KBSR then 32768 else s.memory.mem j⟩,
          input := rest }) := by
  have h1 : s.memory.mem_read MR_KBSR s.input =
      .ok (32768,
        ⟨fun j => if j = MR_KBDR then b else if j = MR_KBSR then 32768 else s.memory.mem j⟩,
        rest) := by
    unfold Memory.mem_read
    rw [if_pos rfl, h, check_key_pos s.memory rest hb]
    show Except.bind _ _ = _
    rw [Except.bind]
    dsimp only
    rw [if_pos (by norm_num [MR_KBSR, MEMORY_MAX])]
    norm_num [MR_KBSR, MR_KBDR]
  unfold memRead
  rw [h1]

/-- Keyboard-status read with a zero byte available: `0` is stored at
`MR_KBSR` and returned. -/
lemma memRead_kbsr_zero {s : St} {rest : List Nat} (h : s.input = 0 :: rest) :
    memRead MR_KBSR s =
      (.ok 0,
        { s with
          memory := ⟨fun j => if j = MR_KBSR then 0 else s.memory.mem j⟩,
          input := rest }) := by
  have h1 : s.memory.mem_read MR_KBSR s.input =
      .ok (0, ⟨fun j => if j = MR_KBSR then 0 else s.memory.mem j⟩, rest) := by
    unfold Memory.mem_read
    rw [if_pos rfl, h, check_key_zero s.memory rest]
    show Except.bind _ _ = _
    rw [Except.bind]
    dsimp only
    rw [if_pos (by norm_num [MR_KBSR, MEMORY_MAX])]
    norm_num
  unfold memRead
  rw [h1]

/-- Keyboard-status read with no byte available fails with a standard
input error and leaves the state unchanged. -/
lemma memRead_kbsr_nil {s : St} (h : s.input = []) :
    memRead MR_KBSR s =
      (.error ( VMError.StandardIO ("Cannot read from Standard Input")), s) := by
  have h1 : s.memory.mem_read MR_KBSR s.input =
      .error ( VMError.StandardIO ("Cannot read from Standard Input")) := by
    unfold Memory.mem_read
    rw [if_pos rfl, h, check_key_nil s.memory]
    rfl
  unfold memRead
  rw [h1]

lemma memRead_frame (i : Nat) (s : St) :
    (memRead i s).2.registers = s.registers ∧ (memRead i s).2.pc = s.pc ∧
    (memRead i s).2.cond = s.cond ∧ (memRead i s).2.running = s.running := by
  unfold memRead
  cases h : s.memory.mem_read i s.input with
  | ok x =>
    rcases x with ⟨v, m', input'⟩
    exact ⟨rfl, rfl, rfl, rfl⟩
  | error e => exact ⟨rfl, rfl, rfl, rfl⟩

/-- Well-formed machine state: every register and memory cell holds a
16-bit value (`u16` in Rust), and the host input delivers bytes
(`u8` in Rust). -/
def WFst (s : St) : Prop :=
  (∀ i, s.registers i < 65536) ∧ (∀ j, s.memory.mem j < 65536) ∧ (∀ b ∈ s.input, b < 256)

/-- A memory read at an in-range index either succeeds with a 16-bit
value, preserving well-formedness and every non-memory component, or
fails with the standard-input error of the keyboard probe, leaving the
state unchanged. -/
lemma memRead_wf {i : Nat} {s : St} (hi : i < 65536) (hs : WFst s) :
    (∃ v s', memRead i s = (.ok v, s') ∧ v < 65536 ∧ WFst s' ∧
      s'.registers = s.registers ∧ s'.pc = s.pc ∧ s'.cond = s.cond ∧
      s'.running = s.running ∧ s'.output = s.output) ∨
    memRead i s = (.error ( VMError.StandardIO ("Cannot read from Standard Input")), s) := by
  by_cases hk : i = MR_KBSR
  · subst hk
    cases hin : s.input with
    | nil => exact Or.inr (memRead_kbsr_nil hin)
    | cons b rest =>
      left
      by_cases hb : b = 0
      · subst hb
        refine ⟨0, _, memRead_kbsr_zero hin, by norm_num, ?_, rfl, rfl, rfl, rfl, rfl⟩
        refine ⟨hs.1, ?_, ?_⟩
        · intro j
          dsimp only
          split
          · norm_num
          · exact hs.2.1 j
        · intro x hx
          exact hs.2.2 x (by rw [hin]; exact List.mem_cons_of_mem _ hx)
      · refine ⟨32768, _, memRead_kbsr_pos hin hb, by norm_num, ?_, rfl, rfl, rfl, rfl, rfl⟩
        refine ⟨hs.1, ?_, ?_⟩
        · intro j
          dsimp only
          have hblt : b < 256 := hs.2.2 b (by rw [hin]; exact List.mem_cons_self b rest)
          split
          · omega
          · split
            · norm_num
            · exact hs.2.1 j
        · intro x hx
          exact hs.2.2 x (by rw [hin]; exact List.mem_cons_of_mem _ hx)
  · exact Or.inl ⟨s.memory.mem i, s, memRead_pure s hk hi, hs.2.1 i, hs, rfl, rfl, rfl, rfl, rfl⟩

/-- The flag computed by `update_flags` relates to the stored value
exactly as the spec describes, for 16-bit values. -/
lemma flagCode_iff (v : Nat) (hv : v < 65536) :
    (flagCode v = .Zro ↔ v = 0) ∧
    (flagCode v = .Neg ↔ (v >>> 15) &&& 1 = 1) ∧
    (flagCode v = .Pos ↔ (v ≠ 0 ∧ (v >>> 15) &&& 1 ≠ 1)) := by
  have hsh : v >>> 15 = v / 32768 := by
    rw [Nat.shiftRight_eq_div_pow]
  have hlt : v / 32768 < 2 := by omega
  unfold flagCode
  rw [hsh, Nat.and_one_is_mod]
  by_cases h0 : v = 0
  · subst h0
    refine ⟨by simp, by simp, by simp⟩
  · rw [if_neg h0]
    by_cases h1 : v / 32768 = 1
    · rw [if_pos h1, h1]
      refine ⟨by simp [h0], by simp, by simp⟩
    · rw [if_neg h1]
      have h2 : v / 32768 = 0 := by omega
      rw [h2]
      refine ⟨by simp [h0], by simp, by simp [h0]⟩

/-- The all-zero memory, as built by `Memory::new`. -/
def mem0 : Memory := ⟨fun _ => 0⟩

/-- The initial machine state built by `VM::new` (zero registers and
memory, PC `0x3000`, flag `Zro`, not running), with empty host
channels. -/
def st0 : St :=
  { registers := fun _ => 0
    pc := 0x3000
    cond := .Zro
    running := false
    memory := mem0
    input := []
    output := [] }

/-- CLAIM C2 (counterexample).  With the PC at `0xFFFF`, one iteration
of the fetch/execute loop fails with `MemoryIndex("PC out of bounds")`
instead of wrapping the PC to 0: `VM::run` increments the PC with
`checked_add`, not with a wrapping addition. -/
theorem c2_counterexample :
    (VM.step { st0 with pc := 65535 }).1 =
      .error (.MemoryIndex ("PC out of bounds")) := by decide

/-- CLAIM C2 (amended).  In every iteration of the fetch/execute loop,
whenever the fetch of the instruction at a PC below `0xFFFF` succeeds —
including a probing fetch at the keyboard-status address `0xFE00` — the
PC is incremented by 1 and execution proceeds on the fetched
instruction; a fetch performed at PC = `0xFFFF` makes the iteration
fail with `MemoryIndex("PC out of bounds")` (the PC increment is a
checked, not wrapping, addition). -/
theorem c2_pc_increment_amended :
    (∀ (s s1 : St) (instr : Nat), s.pc < 65535 →
      memRead s.pc s = (.ok instr, s1) →
      VM.step s = VM.execute instr { s1 with pc := s.pc + 1 }) ∧
    (∀ s : St, s.pc = 65535 →
      VM.step s = (.error (.MemoryIndex ("PC out of bounds")), s)) := by
  constructor
  · intro s s1 instr h hm
    have hpc : s1.pc = s.pc := by
      have hf := (memRead_frame s.pc s).2.1
      rw [hm] at hf
      exact hf
    unfold VM.step
    rw [M.bind_ok (getPc_apply s)]
    rw [M.bind_ok hm]
    rw [M.bind_ok (incrementPc_lt (s := s1) (by omega))]
    rw [hpc]
  · intro s h
    unfold VM.step
    rw [M.bind_ok (getPc_apply s)]
    rw [M.bind_ok (memRead_pure s (by rw [h]; norm_num [MR_KBSR]) (by omega))]
    rw [M.bind_err (incrementPc_max h)]

/-- State with the PC at the keyboard-status address and one byte
pending on stdin: its fetch probes the keyboard and still succeeds. -/
def stC2kb : St := { st0 with pc := MR_KBSR, input := [65] }

/-- CLAIM C2 (witness for the amended theorem): a pure fetch at the
initial PC `0x3000` increments the PC to `0x3001`; a probing fetch at
PC = `0xFE00` (byte available) also increments the PC; the fetch at
`0xFFFF` fails. -/
theorem c2_witness :
    st0.pc < 65535 ∧
    VM.step st0 = VM.execute 0 { st0 with pc := st0.pc + 1 } ∧
    stC2kb.pc < 65535 ∧
    VM.step stC2kb =
      VM.execute 32768 { (memRead stC2kb.pc stC2kb).2 with pc := stC2kb.pc + 1 } ∧
    VM.step { st0 with pc := 65535 } =
      (.error (.MemoryIndex ("PC out of bounds")), { st0 with pc := 65535 }) :=
  ⟨by decide,
    c2_pc_increment_amended.1 st0 st0 0 (by decide) rfl,
    by decide,
    c2_pc_increment_amended.1 stC2kb _ 32768 (by decide) rfl,
    c2_pc_increment_amended.2 { st0 with pc := 65535 } rfl⟩

/-- CLAIM C10.  A TRAP instruction whose 8-bit vector is not one of
`0x20..0x25` fails with `InvalidTrapCode`, but only after R7 has been
overwritten with the current PC: the failing instruction still modifies
R7, so the error is not atomic with respect to the register file. -/
theorem c10_trap_clobbers_r7 (s : St) (instr : Nat)
    (h12 : instr >>> 12 = 15)
    (hv : instr &&& 255 < 32 ∨ 37 < instr &&& 255) :
    VM.execute instr s =
      (.error .InvalidTrapCode,
        { s with registers := fun j => if j = 7 then s.pc else s.registers j }) := by
  unfold VM.execute
  rw [M.bind_ok (show liftE (Opcode.tryFrom (instr >>> 12)) s = (.ok Opcode.Trap, s) from by
    rw [h12]; rfl)]
  show VM.trap instr s = _
  unfold VM.trap
  rw [M.bind_ok (getPc_apply s)]
  rw [M.bind_ok (setRegister_apply s.pc s (by norm_num))]
  have hdec : TrapCode.tryFrom (instr &&& 255) = .error .InvalidTrapCode := by
    unfold TrapCode.tryFrom
    rw [if_neg (by omega), if_neg (by omega), if_neg (by omega), if_neg (by omega),
      if_neg (by omega), if_neg (by omega)]
  rw [M.bind_err (show liftE (TrapCode.tryFrom (instr &&& 255)) _ = _ from by
    rw [hdec]; rfl)]

/-- CLAIM C10 (witness), at the TRAP instruction `0xF0FF` (vector
`0xFF`), executed from the initial state. -/
theorem c10_witness :
    (0xF0FF >>> 12 = 15) ∧ (0xF0FF &&& 255 < 32 ∨ 37 < 0xF0FF &&& 255) ∧
    VM.execute 0xF0FF st0 =
      (.error .InvalidTrapCode,
        { st0 with registers := fun j => if j = 7 then st0.pc else st0.registers j }) :=
  ⟨by decide, by decide, c10_trap_clobbers_r7 st0 0xF0FF (by decide) (by decide)⟩

-- Memory-level forms of the keyboard-probe read, used by claim C5.

lemma mem_read_kbsr_pos (m : Memory) {b : Nat} (rest : List Nat) (hb : b ≠ 0) :
    m.mem_read MR_KBSR (b :: rest) =
      .ok (32768,
        ⟨fun j => if j = MR_KBDR then b else if j = MR_KBSR then 32768 else m.mem j⟩,
        rest) := by
  unfold Memory.mem_read
  rw [if_pos rfl, check_key_pos m rest hb]
  show Except.bind _ _ = _
  rw [Except.bind]
  dsimp only
  rw [if_pos (by norm_num [MR_KBSR, MEMORY_MAX])]
  norm_num [MR_KBSR, MR_KBDR]

lemma mem_read_kbsr_zero (m : Memory) (rest : List Nat) :
    m.mem_read MR_KBSR (0 :: rest) =
      .ok (0, ⟨fun j => if j = MR_KBSR then 0 else m.mem j⟩, rest) := by
  unfold Memory.mem_read
  rw [if_pos rfl, check_key_zero m rest]
  show Except.bind _ _ = _
  rw [Except.bind]
  dsimp only
  rw [if_pos (by norm_num [MR_KBSR, MEMORY_MAX])]
  norm_num

/-- CLAIM C5.  A memory read at an in-range index other than `0xFE00`
returns the stored word and changes nothing; a read at `0xFE00` with a
byte `b` available first probes the keyboard — for `b ≠ 0` it stores
`0x8000` at `0xFE00` and `b` at `0xFE02`, for `b = 0` it stores `0` at
`0xFE00` — and then returns the updated word at `0xFE00`. -/
theorem c5_mem_read_spec :
    (∀ (m : Memory) (i : Nat) (input : List Nat), i ≠ MR_KBSR → i ≤ 65535 →
      m.mem_read i input = .ok (m.mem i, m, input)) ∧
    (∀ (m : Memory) (b : Nat) (rest : List Nat), b ≠ 0 →
      m.mem_read MR_KBSR (b :: rest) =
        .ok (32768,
          ⟨fun j => if j = MR_KBDR then b else if j = MR_KBSR then 32768 else m.mem j⟩,
          rest)) ∧
    (∀ (m : Memory) (rest : List Nat),
      m.mem_read MR_KBSR (0 :: rest) =
        .ok (0, ⟨fun j => if j = MR_KBSR then 0 else m.mem j⟩, rest)) :=
  ⟨fun m i input hne hle => mem_read_pure m i input hne (by omega),
    fun m b rest hb => mem_read_kbsr_pos m rest hb,
    fun m rest => mem_read_kbsr_zero m rest⟩

/-- CLAIM C5 (witness): a pure read at `0x3000` of the zero memory, a
probe read with byte 65 available, and a probe read with byte 0
available. -/
theorem c5_witness :
    ((0x3000 : Nat) ≠ MR_KBSR ∧ (0x3000 : Nat) ≤ 65535 ∧
      mem0.mem_read 0x3000 [] = .ok (mem0.mem 0x3000, mem0, [])) ∧
    ((65 : Nat) ≠ 0 ∧
      mem0.mem_read MR_KBSR [65] =
        .ok (32768,
          ⟨fun j => if j = MR_KBDR then 65 else if j = MR_KBSR then 32768 else mem0.mem j⟩,
          [])) ∧
    mem0.mem_read MR_KBSR [0] =
      .ok (0, ⟨fun j => if j = MR_KBSR then 0 else mem0.mem j⟩, []) :=
  ⟨⟨by decide, by decide, c5_mem_read_spec.1 mem0 0x3000 [] (by decide) (by decide)⟩,
    ⟨by decide, c5_mem_read_spec.2.1 mem0 65 [] (by decide)⟩,
    c5_mem_read_spec.2.2 mem0 []⟩

-- Frame lemmas: which state components the memory read and the two
-- string-printing loops can touch.

lemma seq_flush_snd (x : M Unit) (s : St) :
    ((x >>= fun _ => flushOut) s).2 = (x s).2 := by
  show (M.bind x _ s).2 = _
  unfold M.bind
  rcases hx : x s with ⟨res, t⟩
  cases res <;> rfl

lemma putsLoop_frame (address ch : Nat) (s : St) :
    (putsLoop address ch s).2.registers = s.registers ∧
    (putsLoop address ch s).2.pc = s.pc ∧
    (putsLoop address ch s).2.cond = s.cond ∧
    (putsLoop address ch s).2.running = s.running := by
  induction address, ch using putsLoop.induct generalizing s with
  | case1 address =>
    rw [putsLoop]
    exact ⟨rfl, rfl, rfl, rfl⟩
  | case2 address ch h0 hbig =>
    rw [putsLoop, if_neg h0, if_pos hbig]
    exact ⟨rfl, rfl, rfl, rfl⟩
  | case3 address ch h0 hbig ih =>
    rw [putsLoop, if_neg h0, if_neg hbig]
    rw [M.bind_ok (printByte_apply ch s)]
    by_cases hlt : address < 65535
    · rw [dif_pos hlt]
      rcases hm : memRead (address + 1) { s with output := s.output ++ [ch] } with ⟨res, s2⟩
      have hf := memRead_frame (address + 1) { s with output := s.output ++ [ch] }
      rw [hm] at hf
      cases res with
      | ok next =>
        rw [M.bind_ok hm]
        obtain ⟨h1, h2, h3, h4⟩ := ih hlt next s2
        exact ⟨by rw [h1, hf.1], by rw [h2, hf.2.1], by rw [h3, hf.2.2.1],
          by rw [h4, hf.2.2.2]⟩
      | error e =>
        rw [M.bind_err hm]
        exact ⟨hf.1, hf.2.1, hf.2.2.1, hf.2.2.2⟩
    · rw [dif_neg hlt]
      exact ⟨rfl, rfl, rfl, rfl⟩

lemma putspLoop_frame (address ch : Nat) (s : St) :
    (putspLoop address ch s).2.registers = s.registers ∧
    (putspLoop address ch s).2.pc = s.pc ∧
    (putspLoop address ch s).2.cond = s.cond ∧
    (putspLoop address ch s).2.running = s.running := by
  induction address, ch using putspLoop.induct generalizing s with
  | case1 address =>
    rw [putspLoop]
    exact ⟨rfl, rfl, rfl, rfl⟩
  | case2 address ch h0 hbig =>
    rw [putspLoop, if_neg h0, if_pos hbig]
    exact ⟨rfl, rfl, rfl, rfl⟩
  | case3 address ch h0 hbig ih =>
    rw [putspLoop, if_neg h0, if_neg hbig]
    rw [M.bind_ok (printByte_apply (ch &&& 255) s)]
    by_cases hbig2 : 256 ≤ ch >>> 8
    case pos =>
      rw [if_pos hbig2]
      exact ⟨rfl, rfl, rfl, rfl⟩
    rw [if_neg hbig2]
    rw [M.bind_ok (printByte_apply (ch >>> 8) _)]
    set s1 := { s with output := (s.output ++ [ch &&& 255]) ++ [ch >>> 8] } with hs1
    by_cases hlt : address < 65535
    · rw [dif_pos hlt]
      rcases hm : memRead (address + 1) s1 with ⟨res, s2⟩
      have hf := memRead_frame (address + 1) s1
      rw [hm] at hf
      cases res with
      | ok next =>
        rw [M.bind_ok hm]
        obtain ⟨h1, h2, h3, h4⟩ := ih hlt next s2
        exact ⟨by rw [h1, hf.1], by rw [h2, hf.2.1], by rw [h3, hf.2.2.1],
          by rw [h4, hf.2.2.2]⟩
      | error e =>
        rw [M.bind_err hm]
        exact ⟨hf.1, hf.2.1, hf.2.2.1, hf.2.2.2⟩
    · rw [dif_neg hlt]
      exact ⟨rfl, rfl, rfl, rfl⟩

/-- CLAIM C9.  Among the trap routines, exactly GETC and IN update the
condition flag (they set it from R0 after storing the input byte);
OUT, PUTS, PUTSP and HALT leave the condition flag unchanged in every
starting state, whether they succeed or fail. -/
theorem c9_trap_flag_updates :
    (∀ s : St, ∀ b rest, s.input = b :: rest →
      (VM.getc s).1 = .ok () ∧
      (VM.getc s).2.cond = flagCode ((VM.getc s).2.registers 0)) ∧
    (∀ s : St, ∀ b rest, s.input = b :: rest →
      (VM.in_trap s).1 = .ok () ∧
      (VM.in_trap s).2.cond = flagCode ((VM.in_trap s).2.registers 0)) ∧
    (∀ s : St, (VM.out s).2.cond = s.cond) ∧
    (∀ s : St, (VM.puts s).2.cond = s.cond) ∧
    (∀ s : St, (VM.putsp s).2.cond = s.cond) ∧
    (∀ s : St, (VM.halt s).2.cond = s.cond) := by
  refine ⟨?_, ?_, ?_, ?_, ?_, ?_⟩
  · intro s b rest hin
    unfold VM.getc
    rw [M.bind_ok (readByte_cons hin)]
    rw [M.bind_ok (setRegister_apply b _ (by norm_num))]
    rw [updateFlags_apply _ (by norm_num)]
    exact ⟨rfl, rfl⟩
  · intro s b rest hin
    unfold VM.in_trap
    rw [M.bind_ok (printString_apply _ s)]
    rw [M.bind_ok (readByte_cons (show
      ({ s with output := s.output ++ (List.map Char.toNat "Enter a character: ".data ++ [10]) } : St).input
        = b :: rest from hin))]
    rw [M.bind_ok (setRegister_apply b _ (by norm_num))]
    rw [M.bind_ok (printByte_apply b _)]
    rw [M.bind_ok (updateFlags_apply _ (by norm_num))]
    rw [flushOut_apply]
    exact ⟨rfl, rfl⟩
  · intro s
    unfold VM.out
    rw [M.bind_ok (getRegister_apply s (by norm_num))]
    by_cases h : 256 ≤ s.registers 0
    · rw [if_pos h]
      rfl
    · rw [if_neg h]
      rfl
  · intro s
    unfold VM.puts
    rw [M.bind_ok (getRegister_apply s (by norm_num))]
    rcases hm : memRead (s.registers 0) s with ⟨res, s2⟩
    have hf := memRead_frame (s.registers 0) s
    rw [hm] at hf
    cases res with
    | ok ch =>
      rw [M.bind_ok hm]
      rw [seq_flush_snd]
      rw [(putsLoop_frame (s.registers 0) ch s2).2.2.1]
      exact hf.2.2.1
    | error e =>
      rw [M.bind_err hm]
      exact hf.2.2.1
  · intro s
    unfold VM.putsp
    rw [M.bind_ok (getRegister_apply s (by norm_num))]
    rcases hm : memRead (s.registers 0) s with ⟨res, s2⟩
    have hf := memRead_frame (s.registers 0) s
    rw [hm] at hf
    cases res with
    | ok ch =>
      rw [M.bind_ok hm]
      rw [seq_flush_snd]
      rw [(putspLoop_frame (s.registers 0) ch s2).2.2.1]
      exact hf.2.2.1
    | error e =>
      rw [M.bind_err hm]
      exact hf.2.2.1
  · intro s
    rfl

/-- CLAIM C9 (witness): with the byte 65 on stdin, GETC sets the flag
from R0; OUT, PUTS, PUTSP and HALT leave the initial flag alone. -/
theorem c9_witness :
    (({ st0 with input := [65] } : St).input = 65 :: [] ∧
      (VM.getc { st0 with input := [65] }).2.cond =
        flagCode ((VM.getc { st0 with input := [65] }).2.registers 0) ∧
      (VM.in_trap { st0 with input := [65] }).2.cond =
        flagCode ((VM.in_trap { st0 with input := [65] }).2.registers 0)) ∧
    (VM.out st0).2.cond = st0.cond ∧
    (VM.puts st0).2.cond = st0.cond ∧
    (VM.putsp st0).2.cond = st0.cond ∧
    (VM.halt st0).2.cond = st0.cond :=
  ⟨⟨rfl, (c9_trap_flag_updates.1 _ 65 [] rfl).2, (c9_trap_flag_updates.2.1 _ 65 [] rfl).2⟩,
    c9_trap_flag_updates.2.2.1 st0, c9_trap_flag_updates.2.2.2.1 st0,
    c9_trap_flag_updates.2.2.2.2.1 st0, c9_trap_flag_updates.2.2.2.2.2 st0⟩

-- Helper lemmas for the condition-flag claim.

lemma and7_lt (x : Nat) : x &&& 7 < 8 :=
  Nat.lt_of_le_of_lt Nat.and_le_right (by norm_num)

lemma sign_extend_ok (v n : Nat) (h : n ≠ 0) : ∃ w, sign_extend v n = .ok w := by
  unfold sign_extend
  rw [if_neg h]
  dsimp only
  split
  · exact ⟨_, rfl⟩
  · exact ⟨_, rfl⟩

lemma err_ne_ok {e : VMError} {t s' : St}
    (h : ((.error e, t) : Except VMError Unit × St) = (.ok (), s')) : False := by
  have := congrArg Prod.fst h
  simp at this

/-- The flag/register relation claimed for every DR-writing
instruction. -/
def flagsMatch (s' : St) (r0 : Nat) : Prop :=
  (s'.cond = .Zro ↔ s'.registers r0 = 0) ∧
  (s'.cond = .Neg ↔ (s'.registers r0 >>> 15) &&& 1 = 1) ∧
  (s'.cond = .Pos ↔ (s'.registers r0 ≠ 0 ∧ (s'.registers r0 >>> 15) &&& 1 ≠ 1))

lemma flags_after_updateFlags {r0 : Nat} {t s' : St} (h8 : r0 < 8)
    (hex : updateFlags r0 t = (.ok (), s')) (hv : t.registers r0 < 65536) :
    flagsMatch s' r0 := by
  rw [updateFlags_apply t h8] at hex
  have h2 : s' = { t with cond := flagCode (t.registers r0) } := (congrArg Prod.snd hex).symm
  subst h2
  exact flagCode_iff (t.registers r0) hv

lemma add_flags {instr : Nat} {s s' : St} (hWF : WFst s)
    (hex : VM.add instr s = (.ok (), s')) :
    flagsMatch s' ((instr >>> 9) &&& 7) := by
  have hr0 : (instr >>> 9) &&& 7 < 8 := and7_lt _
  unfold VM.add at hex
  rw [M.bind_ok (getRegister_apply s (and7_lt _))] at hex
  dsimp only at hex
  by_cases hfl : (instr >>> 5) &&& 1 = 1
  · rw [if_pos hfl] at hex
    obtain ⟨w, hw⟩ := sign_extend_ok (instr &&& 31) 5 (by norm_num)
    rw [M.bind_ok (show liftE (sign_extend (instr &&& 31) 5) s = (.ok w, s) from by
      rw [hw]; rfl)] at hex
    rw [M.bind_ok (setRegister_apply _ s hr0)] at hex
    refine flags_after_updateFlags hr0 hex ?_
    simpa using Nat.mod_lt _ (by norm_num)
  · rw [if_neg hfl] at hex
    rw [M.bind_ok (getRegister_apply s (and7_lt instr))] at hex
    rw [M.bind_ok (setRegister_apply _ s hr0)] at hex
    refine flags_after_updateFlags hr0 hex ?_
    simpa using Nat.mod_lt _ (by norm_num)

lemma and_flags {instr : Nat} {s s' : St} (hWF : WFst s)
    (hex : VM.and instr s = (.ok (), s')) :
    flagsMatch s' ((instr >>> 9) &&& 7) := by
  have hr0 : (instr >>> 9) &&& 7 < 8 := and7_lt _
  unfold VM.and at hex
  rw [M.bind_ok (getRegister_apply s (and7_lt _))] at hex
  dsimp only at hex
  by_cases hfl : (instr >>> 5) &&& 1 = 1
  · rw [if_pos hfl] at hex
    obtain ⟨w, hw⟩ := sign_extend_ok (instr &&& 31) 5 (by norm_num)
    rw [M.bind_ok (show liftE (sign_extend (instr &&& 31) 5) s = (.ok w, s) from by
      rw [hw]; rfl)] at hex
    rw [M.bind_ok (setRegister_apply _ s hr0)] at hex
    refine flags_after_updateFlags hr0 hex ?_
    simpa using Nat.lt_of_le_of_lt Nat.and_le_left (hWF.1 ((instr >>> 6) &&& 7))
  · rw [if_neg hfl] at hex
    rw [M.bind_ok (getRegister_apply s (and7_lt instr))] at hex
    rw [M.bind_ok (setRegister_apply _ s hr0)] at hex
    refine flags_after_updateFlags hr0 hex ?_
    simpa using Nat.lt_of_le_of_lt Nat.and_le_left (hWF.1 ((instr >>> 6) &&& 7))

lemma not_flags {instr : Nat} {s s' : St} (hWF : WFst s)
    (hex : VM.not instr s = (.ok (), s')) :
    flagsMatch s' ((instr >>> 9) &&& 7) := by
  have hr0 : (instr >>> 9) &&& 7 < 8 := and7_lt _
  unfold VM.not at hex
  rw [M.bind_ok (getRegister_apply s (and7_lt _))] at hex
  rw [M.bind_ok (setRegister_apply _ s hr0)] at hex
  refine flags_after_updateFlags hr0 hex ?_
  have hx : s.registers ((instr >>> 6) &&& 7) ^^^ 65535 < 65536 := by
    have h1 : s.registers ((instr >>> 6) &&& 7) < 2 ^ 16 := by
      simpa using hWF.1 ((instr >>> 6) &&& 7)
    have h2 : (65535 : Nat) < 2 ^ 16 := by norm_num
    simpa using Nat.xor_lt_two_pow h1 h2
  simpa using hx

lemma lea_flags {instr : Nat} {s s' : St} (hWF : WFst s)
    (hex : VM.lea instr s = (.ok (), s')) :
    flagsMatch s' ((instr >>> 9) &&& 7) := by
  have hr0 : (instr >>> 9) &&& 7 < 8 := and7_lt _
  unfold VM.lea at hex
  obtain ⟨w, hw⟩ := sign_extend_ok (instr &&& 511) 9 (by norm_num)
  rw [M.bind_ok (show liftE (sign_extend (instr &&& 511) 9) s = (.ok w, s) from by
    rw [hw]; rfl)] at hex
  rw [M.bind_ok (getPc_apply s)] at hex
  rw [M.bind_ok (setRegister_apply _ s hr0)] at hex
  refine flags_after_updateFlags hr0 hex ?_
  simpa using Nat.mod_lt _ (show 0 < 65536 by norm_num)

lemma ld_flags {instr : Nat} {s s' : St} (hWF : WFst s)
    (hex : VM.ld instr s = (.ok (), s')) :
    flagsMatch s' ((instr >>> 9) &&& 7) := by
  have hr0 : (instr >>> 9) &&& 7 < 8 := and7_lt _
  unfold VM.ld at hex
  obtain ⟨w, hw⟩ := sign_extend_ok (instr &&& 511) 9 (by norm_num)
  rw [M.bind_ok (show liftE (sign_extend (instr &&& 511) 9) s = (.ok w, s) from by
    rw [hw]; rfl)] at hex
  rw [M.bind_ok (getPc_apply s)] at hex
  rcases memRead_wf (i := (s.pc + w) % 65536) (Nat.mod_lt _ (by norm_num)) hWF with
    ⟨v, t, hm, hv, hWF', _, _, _, _, _⟩ | herr
  · rw [M.bind_ok hm] at hex
    rw [M.bind_ok (setRegister_apply _ t hr0)] at hex
    refine flags_after_updateFlags hr0 hex ?_
    simpa using hv
  · rw [M.bind_err herr] at hex
    exact (err_ne_ok hex).elim

lemma ldr_flags {instr : Nat} {s s' : St} (hWF : WFst s)
    (hex : VM.ldr instr s = (.ok (), s')) :
    flagsMatch s' ((instr >>> 9) &&& 7) := by
  have hr0 : (instr >>> 9) &&& 7 < 8 := and7_lt _
  unfold VM.ldr at hex
  rw [M.bind_ok (getRegister_apply s (and7_lt _))] at hex
  obtain ⟨w, hw⟩ := sign_extend_ok (instr &&& 63) 6 (by norm_num)
  rw [M.bind_ok (show liftE (sign_extend (instr &&& 63) 6) s = (.ok w, s) from by
    rw [hw]; rfl)] at hex
  rcases memRead_wf (i := (s.registers ((instr >>> 6) &&& 7) + w) % 65536)
      (Nat.mod_lt _ (by norm_num)) hWF with
    ⟨v, t, hm, hv, hWF', _, _, _, _, _⟩ | herr
  · rw [M.bind_ok hm] at hex
    rw [M.bind_ok (setRegister_apply _ t hr0)] at hex
    refine flags_after_updateFlags hr0 hex ?_
    simpa using hv
  · rw [M.bind_err herr] at hex
    exact (err_ne_ok hex).elim

lemma ldi_flags {instr : Nat} {s s' : St} (hWF : WFst s)
    (hex : VM.ldi instr s = (.ok (), s')) :
    flagsMatch s' ((instr >>> 9) &&& 7) := by
  have hr0 : (instr >>> 9) &&& 7 < 8 := and7_lt _
  unfold VM.ldi at hex
  obtain ⟨w, hw⟩ := sign_extend_ok (instr &&& 511) 9 (by norm_num)
  rw [M.bind_ok (show liftE (sign_extend (instr &&& 511) 9) s = (.ok w, s) from by
    rw [hw]; rfl)] at hex
  rw [M.bind_ok (getPc_apply s)] at hex
  rcases memRead_wf (i := (s.pc + w) % 65536) (Nat.mod_lt _ (by norm_num)) hWF with
    ⟨v, t, hm, hv, hWF', _, _, _, _, _⟩ | herr
  · rw [M.bind_ok hm] at hex
    rcases memRead_wf (i := v) hv hWF' with ⟨v2, t2, hm2, hv2, hWF2, _, _, _, _, _⟩ | herr2
    · rw [M.bind_ok hm2] at hex
      rw [M.bind_ok (setRegister_apply _ t2 hr0)] at hex
      refine flags_after_updateFlags hr0 hex ?_
      simpa using hv2
    · rw [M.bind_err herr2] at hex
      exact (err_ne_ok hex).elim
  · rw [M.bind_err herr] at hex
    exact (err_ne_ok hex).elim

/-- CLAIM C3.  For every executed instruction that writes a general
register DR (ADD, AND, NOT, LD, LDR, LDI, LEA — opcodes 1, 5, 9, 2, 6,
10, 14), after successful execution the condition flag is `Zro` iff
`reg[DR] = 0`, `Neg` iff bit 15 of `reg[DR]` is 1, and `Pos`
otherwise. -/
theorem c3_dr_write_flags (s : St) (instr : Nat) (s' : St) (hWF : WFst s)
    (hop : (instr >>> 12) ∈ ([1, 5, 9, 2, 6, 10, 14] : List Nat))
    (hex : VM.execute instr s = (.ok (), s')) :
    flagsMatch s' ((instr >>> 9) &&& 7) := by
  simp only [List.mem_cons, List.not_mem_nil, or_false] at hop
  rcases hop with h | h | h | h | h | h | h
  · unfold VM.execute at hex
    rw [M.bind_ok (show liftE (Opcode.tryFrom (instr >>> 12)) s = (.ok Opcode.Add, s) from by
      rw [h]; rfl)] at hex
    exact add_flags hWF hex
  · unfold VM.execute at hex
    rw [M.bind_ok (show liftE (Opcode.tryFrom (instr >>> 12)) s = (.ok Opcode.And, s) from by
      rw [h]; rfl)] at hex
    exact and_flags hWF hex
  · unfold VM.execute at hex
    rw [M.bind_ok (show liftE (Opcode.tryFrom (instr >>> 12)) s = (.ok Opcode.Not, s) from by
      rw [h]; rfl)] at hex
    exact not_flags hWF hex
  · unfold VM.execute at hex
    rw [M.bind_ok (show liftE (Opcode.tryFrom (instr >>> 12)) s = (.ok Opcode.LD, s) from by
      rw [h]; rfl)] at hex
    exact ld_flags hWF hex
  · unfold VM.execute at hex
    rw [M.bind_ok (show liftE (Opcode.tryFrom (instr >>> 12)) s = (.ok Opcode.Ldr, s) from by
      rw [h]; rfl)] at hex
    exact ldr_flags hWF hex
  · unfold VM.execute at hex
    rw [M.bind_ok (show liftE (Opcode.tryFrom (instr >>> 12)) s = (.ok Opcode.Ldi, s) from by
      rw [h]; rfl)] at hex
    exact ldi_flags hWF hex
  · unfold VM.execute at hex
    rw [M.bind_ok (show liftE (Opcode.tryFrom (instr >>> 12)) s = (.ok Opcode.Lea, s) from by
      rw [h]; rfl)] at hex
    exact lea_flags hWF hex

lemma st0_wf : WFst st0 :=
  ⟨fun i => by norm_num [st0], fun j => by norm_num [st0, mem0],
    fun b hb => by simp [st0] at hb⟩

/-- CLAIM C3 (witness), at `ADD R0, R0, #1` (`0x1021`) executed from
the initial state: R0 becomes 1 and the flag relation holds. -/
theorem c3_witness :
    WFst st0 ∧ (((0x1021 : Nat) >>> 12) ∈ ([1, 5, 9, 2, 6, 10, 14] : List Nat)) ∧
    flagsMatch (VM.execute 0x1021 st0).2 (((0x1021 : Nat) >>> 9) &&& 7) :=
  ⟨st0_wf, by decide, c3_dr_write_flags st0 0x1021 _ st0_wf (by decide) rfl⟩

-- Helper evaluation lemmas for the wrapping-address claim.

lemma memWrite_apply {i : Nat} (v : Nat) (s : St) (hi : i < 65536) :
    memWrite v i s =
      (.ok (), { s with memory := ⟨fun j => if j = i then v else s.memory.mem j⟩ }) := by
  unfold memWrite
  rw [mem_write_lt s.memory v i hi]

lemma br_eq (s : St) (instr off : Nat)
    (hoff : sign_extend (instr &&& 511) 9 = .ok off) :
    VM.br instr s =
      (.ok (), if meetCondition s.cond ((instr >>> 9) &&& 7) ≠ 0 then
        { s with pc := (s.pc + off) % 65536 } else s) := by
  unfold VM.br
  rw [M.bind_ok (show liftE (sign_extend (instr &&& 511) 9) s = (.ok off, s) from by
    rw [hoff]; rfl)]
  rw [M.bind_ok (getCond_apply s)]
  by_cases hc : meetCondition s.cond ((instr >>> 9) &&& 7) ≠ 0
  · rw [if_pos hc, if_pos hc]
    rw [M.bind_ok (getPc_apply s)]
    rfl
  · rw [if_neg hc, if_neg hc]
    rfl

lemma jsr_long_eq (s : St) (instr off : Nat) (hlong : (instr >>> 11) &&& 1 = 1)
    (hoff : sign_extend (instr &&& 2047) 11 = .ok off) :
    VM.jsr instr s =
      (.ok (), { s with
        registers := fun j => if j = 7 then s.pc else s.registers j,
        pc := (s.pc + off) % 65536 }) := by
  unfold VM.jsr
  rw [M.bind_ok (getPc_apply s)]
  rw [M.bind_ok (setRegister_apply s.pc s (by norm_num))]
  dsimp only
  rw [if_pos hlong]
  rw [M.bind_ok (show liftE (sign_extend (instr &&& 2047) 11) _ = (.ok off, _) from by
    rw [hoff]; rfl)]
  rw [M.bind_ok (getPc_apply _)]
  rfl

lemma fst_ok_split {x : Except VMError Unit × St} (h : x.1 = .ok ()) :
    x = (.ok (), x.2) := by
  obtain ⟨r, t⟩ := x
  simp only at h
  rw [h]

lemma fst_err_split {x : Except VMError Unit × St} {e : VMError} (h : x.1 = .error e) :
    x = (.error e, x.2) := by
  obtain ⟨r, t⟩ := x
  simp only at h
  rw [h]

/-- CLAIM C4.  For the nine instructions whose effective address is a
base (PC or register) plus a sign-extended offset — BR, LD, ST, JSR,
LDR, STR, LDI, STI, LEA — the address arithmetic is 16-bit wrapping
addition and can never fail: for every well-formed state the
instruction either succeeds or fails only with the StandardIO error
of a keyboard probe (never `MemoryIndex` or `Overflow`).  Moreover BR
and long JSR set the PC to exactly the wrapped sum of the incremented
PC and the sign-extended offset. -/
theorem c4_wrapping_addresses :
    (∀ (s : St) (instr : Nat), WFst s →
      (instr >>> 12) ∈ ([0, 2, 3, 4, 6, 7, 10, 11, 14] : List Nat) →
      (∃ s', VM.execute instr s = (.ok (), s')) ∨
      (∃ msg s', VM.execute instr s = (.error ( VMError.StandardIO msg), s'))) ∧
    (∀ (s : St) (instr off : Nat), instr >>> 12 = 0 →
      sign_extend (instr &&& 511) 9 = .ok off →
      VM.execute instr s =
        (.ok (), if meetCondition s.cond ((instr >>> 9) &&& 7) ≠ 0 then
          { s with pc := (s.pc + off) % 65536 } else s)) ∧
    (∀ (s : St) (instr off : Nat), instr >>> 12 = 4 → (instr >>> 11) &&& 1 = 1 →
      sign_extend (instr &&& 2047) 11 = .ok off →
      VM.execute instr s =
        (.ok (), { s with
          registers := fun j => if j = 7 then s.pc else s.registers j,
          pc := (s.pc + off) % 65536 })) := by
  refine ⟨?_, ?_, ?_⟩
  · intro s instr hWF hop
    simp only [List.mem_cons, List.not_mem_nil, or_false] at hop
    rcases hop with h | h | h | h | h | h | h | h | h
    · -- BR
      left
      obtain ⟨w, hw⟩ := sign_extend_ok (instr &&& 511) 9 (by norm_num)
      refine ⟨(VM.execute instr s).2, fst_ok_split ?_⟩
      unfold VM.execute
      rw [M.bind_ok (show liftE (Opcode.tryFrom (instr >>> 12)) s = (.ok Opcode.BR, s) from by
        rw [h]; rfl)]
      show (VM.br instr s).1 = _
      rw [br_eq s instr w hw]
    · -- LD
      obtain ⟨w, hw⟩ := sign_extend_ok (instr &&& 511) 9 (by norm_num)
      rcases memRead_wf (i := (s.pc + w) % 65536) (Nat.mod_lt _ (by norm_num)) hWF with
        ⟨v, t, hm, hv, _, _, _, _, _, _⟩ | herr
      · left
        refine ⟨(VM.execute instr s).2, fst_ok_split ?_⟩
        unfold VM.execute
        rw [M.bind_ok (show liftE (Opcode.tryFrom (instr >>> 12)) s = (.ok Opcode.LD, s) from by
          rw [h]; rfl)]
        show (VM.ld instr s).1 = _
        unfold VM.ld
        rw [M.bind_ok (show liftE (sign_extend (instr &&& 511) 9) s = (.ok w, s) from by
          rw [hw]; rfl)]
        rw [M.bind_ok (getPc_apply s), M.bind_ok hm,
          M.bind_ok (setRegister_apply v t (and7_lt _)), updateFlags_apply _ (and7_lt _)]
      · right
        refine ⟨"Cannot read from Standard Input", (VM.execute instr s).2, fst_err_split ?_⟩
        unfold VM.execute
        rw [M.bind_ok (show liftE (Opcode.tryFrom (instr >>> 12)) s = (.ok Opcode.LD, s) from by
          rw [h]; rfl)]
        show (VM.ld instr s).1 = _
        unfold VM.ld
        rw [M.bind_ok (show liftE (sign_extend (instr &&& 511) 9) s = (.ok w, s) from by
          rw [hw]; rfl)]
        rw [M.bind_ok (getPc_apply s), M.bind_err herr]
    · -- ST
      left
      obtain ⟨w, hw⟩ := sign_extend_ok (instr &&& 511) 9 (by norm_num)
      refine ⟨(VM.execute instr s).2, fst_ok_split ?_⟩
      unfold VM.execute
      rw [M.bind_ok (show liftE (Opcode.tryFrom (instr >>> 12)) s = (.ok Opcode.ST, s) from by
        rw [h]; rfl)]
      show (VM.st instr s).1 = _
      unfold VM.st
      rw [M.bind_ok (getRegister_apply s (and7_lt _))]
      rw [M.bind_ok (show liftE (sign_extend (instr &&& 511) 9) s = (.ok w, s) from by
        rw [hw]; rfl)]
      rw [M.bind_ok (getPc_apply s)]
      rw [memWrite_apply _ s (Nat.mod_lt _ (by norm_num))]
    · -- JSR
      left
      refine ⟨(VM.execute instr s).2, fst_ok_split ?_⟩
      unfold VM.execute
      rw [M.bind_ok (show liftE (Opcode.tryFrom (instr >>> 12)) s = (.ok Opcode.Jsr, s) from by
        rw [h]; rfl)]
      show (VM.jsr instr s).1 = _
      by_cases hlong : (instr >>> 11) &&& 1 = 1
      · obtain ⟨w, hw⟩ := sign_extend_ok (instr &&& 2047) 11 (by norm_num)
        rw [jsr_long_eq s instr w hlong hw]
      · unfold VM.jsr
        rw [M.bind_ok (getPc_apply s)]
        rw [M.bind_ok (setRegister_apply s.pc s (by norm_num))]
        dsimp only
        rw [if_neg hlong]
        rw [M.bind_ok (getRegister_apply _ (and7_lt _))]
        rfl
    · -- LDR
      obtain ⟨w, hw⟩ := sign_extend_ok (instr &&& 63) 6 (by norm_num)
      rcases memRead_wf (i := (s.registers ((instr >>> 6) &&& 7) + w) % 65536)
          (Nat.mod_lt _ (by norm_num)) hWF with
        ⟨v, t, hm, hv, _, _, _, _, _, _⟩ | herr
      · left
        refine ⟨(VM.execute instr s).2, fst_ok_split ?_⟩
        unfold VM.execute
        rw [M.bind_ok (show liftE (Opcode.tryFrom (instr >>> 12)) s = (.ok Opcode.Ldr, s) from by
          rw [h]; rfl)]
        show (VM.ldr instr s).1 = _
        unfold VM.ldr
        rw [M.bind_ok (getRegister_apply s (and7_lt _))]
        rw [M.bind_ok (show liftE (sign_extend (instr &&& 63) 6) s = (.ok w, s) from by
          rw [hw]; rfl)]
        rw [M.bind_ok hm, M.bind_ok (setRegister_apply v t (and7_lt _)),
          updateFlags_apply _ (and7_lt _)]
      · right
        refine ⟨"Cannot read from Standard Input", (VM.execute instr s).2, fst_err_split ?_⟩
        unfold VM.execute
        rw [M.bind_ok (show liftE (Opcode.tryFrom (instr >>> 12)) s = (.ok Opcode.Ldr, s) from by
          rw [h]; rfl)]
        show (VM.ldr instr s).1 = _
        unfold VM.ldr
        rw [M.bind_ok (getRegister_apply s (and7_lt _))]
        rw [M.bind_ok (show liftE (sign_extend (instr &&& 63) 6) s = (.ok w, s) from by
          rw [hw]; rfl)]
        rw [M.bind_err herr]
    · -- STR
      left
      obtain ⟨w, hw⟩ := sign_extend_ok (instr &&& 63) 6 (by norm_num)
      refine ⟨(VM.execute instr s).2, fst_ok_split ?_⟩
      unfold VM.execute
      rw [M.bind_ok (show liftE (Opcode.tryFrom (instr >>> 12)) s = (.ok Opcode.Str, s) from by
        rw [h]; rfl)]
      show (VM.str instr s).1 = _
      unfold VM.str
      rw [M.bind_ok (getRegister_apply s (and7_lt _))]
      rw [M.bind_ok (getRegister_apply s (and7_lt _))]
      rw [M.bind_ok (show liftE (sign_extend (instr &&& 63) 6) s = (.ok w, s) from by
        rw [hw]; rfl)]
      rw [memWrite_apply _ s (Nat.mod_lt _ (by norm_num))]
    · -- LDI
      obtain ⟨w, hw⟩ := sign_extend_ok (instr &&& 511) 9 (by norm_num)
      rcases memRead_wf (i := (s.pc + w) % 65536) (Nat.mod_lt _ (by norm_num)) hWF with
        ⟨v, t, hm, hv, hWF', _, _, _, _, _⟩ | herr
      · rcases memRead_wf (i := v) hv hWF' with
          ⟨v2, t2, hm2, hv2, _, _, _, _, _, _⟩ | herr2
        · left
          refine ⟨(VM.execute instr s).2, fst_ok_split ?_⟩
          unfold VM.execute
          rw [M.bind_ok (show liftE (Opcode.tryFrom (instr >>> 12)) s
              = (.ok Opcode.Ldi, s) from by rw [h]; rfl)]
          show (VM.ldi instr s).1 = _
          unfold VM.ldi
          rw [M.bind_ok (show liftE (sign_extend (instr &&& 511) 9) s = (.ok w, s) from by
            rw [hw]; rfl)]
          rw [M.bind_ok (getPc_apply s), M.bind_ok hm, M.bind_ok hm2,
            M.bind_ok (setRegister_apply v2 t2 (and7_lt _)), updateFlags_apply _ (and7_lt _)]
        · right
          refine ⟨"Cannot read from Standard Input", (VM.execute instr s).2, fst_err_split ?_⟩
          unfold VM.execute
          rw [M.bind_ok (show liftE (Opcode.tryFrom (instr >>> 12)) s
              = (.ok Opcode.Ldi, s) from by rw [h]; rfl)]
          show (VM.ldi instr s).1 = _
          unfold VM.ldi
          rw [M.bind_ok (show liftE (sign_extend (instr &&& 511) 9) s = (.ok w, s) from by
            rw [hw]; rfl)]
          rw [M.bind_ok (getPc_apply s), M.bind_ok hm, M.bind_err herr2]
      · right
        refine ⟨"Cannot read from Standard Input", (VM.execute instr s).2, fst_err_split ?_⟩
        unfold VM.execute
        rw [M.bind_ok (show liftE (Opcode.tryFrom (instr >>> 12)) s
            = (.ok Opcode.Ldi, s) from by rw [h]; rfl)]
        show (VM.ldi instr s).1 = _
        unfold VM.ldi
        rw [M.bind_ok (show liftE (sign_extend (instr &&& 511) 9) s = (.ok w, s) from by
          rw [hw]; rfl)]
        rw [M.bind_ok (getPc_apply s), M.bind_err herr]
    · -- STI
      obtain ⟨w, hw⟩ := sign_extend_ok (instr &&& 511) 9 (by norm_num)
      rcases memRead_wf (i := (s.pc + w) % 65536) (Nat.mod_lt _ (by norm_num)) hWF with
        ⟨v, t, hm, hv, _, _, _, _, _, _⟩ | herr
      · left
        refine ⟨(VM.execute instr s).2, fst_ok_split ?_⟩
        unfold VM.execute
        rw [M.bind_ok (show liftE (Opcode.tryFrom (instr >>> 12)) s = (.ok Opcode.Sti, s) from by
          rw [h]; rfl)]
        show (VM.sti instr s).1 = _
        unfold VM.sti
        rw [M.bind_ok (getRegister_apply s (and7_lt _))]
        rw [M.bind_ok (show liftE (sign_extend (instr &&& 511) 9) s = (.ok w, s) from by
          rw [hw]; rfl)]
        rw [M.bind_ok (getPc_apply s), M.bind_ok hm]
        rw [memWrite_apply _ t hv]
      · right
        refine ⟨"Cannot read from Standard Input", (VM.execute instr s).2, fst_err_split ?_⟩
        unfold VM.execute
        rw [M.bind_ok (show liftE (Opcode.tryFrom (instr >>> 12)) s = (.ok Opcode.Sti, s) from by
          rw [h]; rfl)]
        show (VM.sti instr s).1 = _
        unfold VM.sti
        rw [M.bind_ok (getRegister_apply s (and7_lt _))]
        rw [M.bind_ok (show liftE (sign_extend (instr &&& 511) 9) s = (.ok w, s) from by
          rw [hw]; rfl)]
        rw [M.bind_ok (getPc_apply s), M.bind_err herr]
    · -- LEA
      left
      obtain ⟨w, hw⟩ := sign_extend_ok (instr &&& 511) 9 (by norm_num)
      refine ⟨(VM.execute instr s).2, fst_ok_split ?_⟩
      unfold VM.execute
      rw [M.bind_ok (show liftE (Opcode.tryFrom (instr >>> 12)) s = (.ok Opcode.Lea, s) from by
        rw [h]; rfl)]
      show (VM.lea instr s).1 = _
      unfold VM.lea
      rw [M.bind_ok (show liftE (sign_extend (instr &&& 511) 9) s = (.ok w, s) from by
        rw [hw]; rfl)]
      rw [M.bind_ok (getPc_apply s)]
      rw [M.bind_ok (setRegister_apply _ s (and7_lt _))]
      rw [updateFlags_apply _ (and7_lt _)]
  · intro s instr off h hoff
    unfold VM.execute
    rw [M.bind_ok (show liftE (Opcode.tryFrom (instr >>> 12)) s = (.ok Opcode.BR, s) from by
      rw [h]; rfl)]
    exact br_eq s instr off hoff
  · intro s instr off h hlong hoff
    unfold VM.execute
    rw [M.bind_ok (show liftE (Opcode.tryFrom (instr >>> 12)) s = (.ok Opcode.Jsr, s) from by
      rw [h]; rfl)]
    exact jsr_long_eq s instr off hlong hoff

/-- CLAIM C4 (witness): LDI (worst-case address chain) from the initial
state succeeds or probes stdin, and BR/JSR at concrete offsets set the
wrapped PC. -/
theorem c4_witness :
    (WFst st0 ∧ (((0xA042 : Nat) >>> 12) ∈ ([0, 2, 3, 4, 6, 7, 10, 11, 14] : List Nat)) ∧
      ((∃ s', VM.execute 0xA042 st0 = (.ok (), s')) ∨
        (∃ msg s', VM.execute 0xA042 st0 = (.error ( VMError.StandardIO msg), s')))) ∧
    ((0x0E0A : Nat) >>> 12 = 0 ∧ sign_extend (0x0E0A &&& 511) 9 = .ok 10 ∧
      VM.execute 0x0E0A st0 =
        (.ok (), if meetCondition st0.cond ((0x0E0A >>> 9) &&& 7) ≠ 0 then
          { st0 with pc := (st0.pc + 10) % 65536 } else st0)) ∧
    ((0x4842 : Nat) >>> 12 = 4 ∧ (0x4842 >>> 11) &&& 1 = 1 ∧
      sign_extend (0x4842 &&& 2047) 11 = .ok 0x42 ∧
      VM.execute 0x4842 st0 =
        (.ok (), { st0 with
          registers := fun j => if j = 7 then st0.pc else st0.registers j,
          pc := (st0.pc + 0x42) % 65536 })) :=
  ⟨⟨st0_wf, by decide, c4_wrapping_addresses.1 st0 0xA042 st0_wf (by decide)⟩,
    ⟨by decide, by decide, c4_wrapping_addresses.2.1 st0 0x0E0A 10 (by decide) (by decide)⟩,
    ⟨by decide, by decide, by decide,
      c4_wrapping_addresses.2.2 st0 0x4842 0x42 (by decide) (by decide) (by decide)⟩⟩

-- Image-loader lemmas for the round-trip and odd-length claims.

lemma chunksExact2_cons_cons (a b : Nat) (rest : List Nat) :
    chunksExact2 (a :: b :: rest) = [a, b] :: chunksExact2 rest := rfl

lemma chunksExact2_flatten_map (ws : List Nat) :
    chunksExact2 ((ws.map toBE).flatten) = ws.map toBE := by
  induction ws with
  | nil => rfl
  | cons w ws ih =>
    show chunksExact2 (w / 256 :: w % 256 :: (ws.map toBE).flatten) = _
    rw [chunksExact2_cons_cons, ih]
    rfl

lemma concatenate_toBE (w : Nat) (hw : w < 65536) :
    concatenate_bytes (toBE w) = .ok w := by
  unfold concatenate_bytes toBE
  rw [if_neg (by simp)]
  show (Except.ok (w / 256 * 256 + w % 256) : Except VMError Nat) = .ok w
  have h : w / 256 * 256 + w % 256 = w := by omega
  rw [h]

lemma collectWords_map (ws : List Nat) (hws : ∀ w ∈ ws, w < 65536) :
    collectWords (ws.map toBE) = .ok ws := by
  induction ws with
  | nil => rfl
  | cons w ws ih =>
    show collectWords (toBE w :: ws.map toBE) = _
    unfold collectWords
    rw [concatenate_toBE w (hws w (List.mem_cons_self w ws))]
    show Except.bind _ _ = _
    rw [Except.bind]
    rw [ih (fun x hx => hws x (List.mem_cons_of_mem _ hx))]
    rfl

lemma load_words_spec (ws : List Nat) : ∀ (m : Memory) (origin i : Nat),
    origin + i + ws.length ≤ 65536 →
    ∃ m', m.load_words origin ws i = .ok m' ∧
      (∀ t (ht : t < ws.length), m'.mem (origin + i + t) = ws.get ⟨t, ht⟩) ∧
      (∀ j, j < origin + i ∨ origin + i + ws.length ≤ j → m'.mem j = m.mem j) := by
  induction ws with
  | nil =>
    intro m origin i hfit
    refine ⟨m, rfl, ?_, fun j hj => rfl⟩
    intro t ht
    simp at ht
  | cons w ws ih =>
    intro m origin i hfit
    have hlen : (w :: ws).length = ws.length + 1 := rfl
    have hidx : i + origin < 65536 := by rw [hlen] at hfit; omega
    have heq : m.load_words origin (w :: ws) i =
        Memory.load_words ⟨fun j => if j = i + origin then w else m.mem j⟩ origin ws (i + 1) := by
      show (do
        let m' ← m.mem_write w (i + origin)
        m'.load_words origin ws (i + 1) : Except VMError Memory) = _
      rw [mem_write_lt m w (i + origin) hidx]
      show Except.bind _ _ = _
      rw [Except.bind]
    obtain ⟨m', hload, hin, hout⟩ :=
      ih ⟨fun j => if j = i + origin then w else m.mem j⟩ origin (i + 1)
        (by rw [hlen] at hfit; omega)
    refine ⟨m', by rw [heq]; exact hload, ?_, ?_⟩
    · intro t ht
      cases t with
      | zero =>
        have h1 : m'.mem (origin + i + 0) =
            (⟨fun j => if j = i + origin then w else m.mem j⟩ : Memory).mem (origin + i + 0) :=
          hout (origin + i + 0) (by omega)
        rw [h1]
        show (if origin + i + 0 = i + origin then w else m.mem (origin + i + 0)) = w
        rw [if_pos (by omega)]
      | succ t =>
        have h2 : origin + i + (t + 1) = origin + (i + 1) + t := by omega
        rw [h2]
        have ht' : t < ws.length := by rw [hlen] at ht; omega
        have := hin t ht'
        rw [this]
        rfl
    · intro j hj
      have h1 : m'.mem j = (if j = i + origin then w else m.mem j) :=
        hout j (by rw [hlen] at hj; rcases hj with hj | hj <;> omega)
      rw [h1, if_neg (by rw [hlen] at hj; rcases hj with hj | hj <;> omega)]

/-- CLAIM C6.  Loading an image formed by the big-endian origin bytes
followed by the big-endian bytes of words `w0..wk-1`, with
`origin + k ≤ 0x10000`, succeeds, stores `wi` at `origin + i` for every
`i < k`, and leaves every other memory cell unchanged. -/
theorem c6_image_roundtrip (m : Memory) (origin : Nat) (ws : List Nat)
    (horigin : origin < 65536) (hws : ∀ w ∈ ws, w < 65536)
    (hfit : origin + ws.length ≤ 65536) :
    ∃ m', m.read_image_bytes (imageBytes origin ws) = .ok m' ∧
      (∀ t (ht : t < ws.length), m'.mem (origin + t) = ws.get ⟨t, ht⟩) ∧
      (∀ j, j < origin ∨ origin + ws.length ≤ j → m'.mem j = m.mem j) := by
  have hchunks : chunksExact2 (imageBytes origin ws) = toBE origin :: ws.map toBE := by
    show chunksExact2 (origin / 256 :: origin % 256 :: (ws.map toBE).flatten) = _
    rw [chunksExact2_cons_cons, chunksExact2_flatten_map]
    rfl
  have heq : m.read_image_bytes (imageBytes origin ws) = m.load_words origin ws 0 := by
    unfold Memory.read_image_bytes
    rw [hchunks]
    show Except.bind (concatenate_bytes (toBE origin)) _ = _
    rw [concatenate_toBE origin horigin, Except.bind]
    show Except.bind (collectWords (ws.map toBE)) _ = _
    rw [collectWords_map ws hws, Except.bind]
  obtain ⟨m', h1, h2, h3⟩ := load_words_spec ws m origin 0 (by omega)
  refine ⟨m', by rw [heq]; exact h1, ?_, fun j hj => h3 j (by omega)⟩
  intro t ht
  have := h2 t ht
  rw [show origin + 0 + t = origin + t from by omega] at this
  exact this

/-- CLAIM C6 (witness): the repository's own loader test image
`[0x00, 0x30, 0xf2, 0xf3, 0xf4, 0xf5]` loads `0xf2f3` at `0x3000` and
`0xf4f5` at `0x3001`, leaving other cells unchanged. -/
theorem c6_witness :
    (0x3000 : Nat) < 65536 ∧ (∀ w ∈ ([0xf2f3, 0xf4f5] : List Nat), w < 65536) ∧
    0x3000 + ([0xf2f3, 0xf4f5] : List Nat).length ≤ 65536 ∧
    ∃ m', mem0.read_image_bytes (imageBytes 0x3000 [0xf2f3, 0xf4f5]) = .ok m' ∧
      (∀ t (ht : t < ([0xf2f3, 0xf4f5] : List Nat).length),
        m'.mem (0x3000 + t) = ([0xf2f3, 0xf4f5] : List Nat).get ⟨t, ht⟩) ∧
      (∀ j, j < 0x3000 ∨ 0x3000 + ([0xf2f3, 0xf4f5] : List Nat).length ≤ j →
        m'.mem j = mem0.mem j) :=
  ⟨by decide, by decide, by decide,
    c6_image_roundtrip mem0 0x3000 [0xf2f3, 0xf4f5] (by decide) (by decide) (by decide)⟩

lemma chunksExact2_dropLast (l : List Nat) (hodd : l.length % 2 = 1) :
    chunksExact2 l.dropLast = chunksExact2 l := by
  induction l using chunksExact2.induct with
  | case1 a b rest ih =>
    have hrest : rest.length % 2 = 1 := by
      have : (a :: b :: rest).length = rest.length + 2 := rfl
      omega
    have hne : rest ≠ [] := by
      intro hcon
      rw [hcon] at hrest
      simp at hrest
    have hdrop : (a :: b :: rest).dropLast = a :: b :: rest.dropLast := by
      rcases rest with _ | ⟨c, rest'⟩
      · exact absurd rfl hne
      · rfl
    rw [hdrop, chunksExact2_cons_cons, chunksExact2_cons_cons, ih hrest]
  | case2 l h =>
    rcases l with _ | ⟨a, _ | ⟨b, rest⟩⟩
    · rfl
    · rfl
    · exact absurd rfl (h a b rest)

/-- CLAIM C7 (counterexample).  The odd-length byte sequence
`[0x00, 0x30, 0xAA]` loads successfully (the trailing byte `0xAA` is
silently dropped by `chunks_exact(2)`), leaving memory unchanged — it
does not fail with `ConcatenatingBytes`. -/
theorem c7_counterexample :
    mem0.read_image_bytes [0x00, 0x30, 0xAA] = .ok mem0 := rfl

lemma chunksExact2_length (l : List Nat) : ∀ c ∈ chunksExact2 l, c.length = 2 := by
  induction l using chunksExact2.induct with
  | case1 a b rest ih =>
    intro c hc
    rw [chunksExact2_cons_cons] at hc
    rcases List.mem_cons.mp hc with h | h
    · rw [h]
      rfl
    · exact ih c h
  | case2 l h =>
    intro c hc
    rcases l with _ | ⟨a, _ | ⟨b, rest⟩⟩
    · simp [chunksExact2] at hc
    · simp [chunksExact2] at hc
    · exact absurd rfl (h a b rest)

lemma concatenate_len2 (c : List Nat) (h : c.length = 2) :
    ∃ w, concatenate_bytes c = .ok w := by
  rcases c with _ | ⟨a, _ | ⟨b, _ | ⟨x, r⟩⟩⟩
  · simp at h
  · simp at h
  · refine ⟨a * 256 + b, ?_⟩
    unfold concatenate_bytes
    rw [if_neg (by simp)]
    rfl
  · simp at h

lemma collectWords_ok (cs : List (List Nat)) (h : ∀ c ∈ cs, c.length = 2) :
    ∃ ws, collectWords cs = .ok ws := by
  induction cs with
  | nil => exact ⟨[], rfl⟩
  | cons c cs ih =>
    obtain ⟨w, hw⟩ := concatenate_len2 c (h c (List.mem_cons_self c cs))
    obtain ⟨ws, hws⟩ := ih (fun x hx => h x (List.mem_cons_of_mem _ hx))
    refine ⟨w :: ws, ?_⟩
    unfold collectWords
    rw [hw]
    show Except.bind _ _ = _
    rw [Except.bind]
    rw [hws]
    rfl

lemma load_words_ok_or_memidx (ws : List Nat) : ∀ (m : Memory) (origin i : Nat),
    (∃ m', m.load_words origin ws i = .ok m') ∨
    (∃ msg, m.load_words origin ws i = .error (.MemoryIndex msg)) := by
  induction ws with
  | nil =>
    intro m origin i
    exact Or.inl ⟨m, rfl⟩
  | cons w ws ih =>
    intro m origin i
    by_cases hidx : i + origin < 65536
    · have heq : m.load_words origin (w :: ws) i =
          Memory.load_words ⟨fun j => if j = i + origin then w else m.mem j⟩ origin ws (i + 1) := by
        show (do
          let m' ← m.mem_write w (i + origin)
          m'.load_words origin ws (i + 1) : Except VMError Memory) = _
        rw [mem_write_lt m w (i + origin) hidx]
        show Except.bind _ _ = _
        rw [Except.bind]
      rw [heq]
      exact ih _ origin (i + 1)
    · right
      refine ⟨"Index out of bound when writing memory", ?_⟩
      have hw : m.mem_write w (i + origin) =
          .error (.MemoryIndex ("Index out of bound when writing memory")) := by
        unfold Memory.mem_write
        rw [if_neg (by unfold MEMORY_MAX; omega)]
      show (do
        let m' ← m.mem_write w (i + origin)
        m'.load_words origin ws (i + 1) : Except VMError Memory) = _
      rw [hw]
      rfl

/-- CLAIM C7 (amended).  A byte sequence of length 0 or 1 (too short to
contain an origin word) fails with `ConcatenatingBytes`; a sequence of
length at least 2 — odd or even — never fails with
`ConcatenatingBytes` (every chunk handed to the byte concatenation has
exactly two bytes; loading either succeeds or fails with `MemoryIndex`
when a write would run past `0xFFFF`); and an odd-length sequence loads
exactly as the sequence with its trailing byte removed, the trailing
odd byte being silently ignored. -/
theorem c7_odd_length_amended :
    (∀ m : Memory,
      m.read_image_bytes [] =
        .error (.ConcatenatingBytes ("No valid origin position from image"))) ∧
    (∀ (m : Memory) (b : Nat),
      m.read_image_bytes [b] =
        .error (.ConcatenatingBytes ("No valid origin position from image"))) ∧
    (∀ (m : Memory) (bytes : List Nat) (msg : String), 2 ≤ bytes.length →
      m.read_image_bytes bytes ≠ .error (.ConcatenatingBytes msg)) ∧
    (∀ (m : Memory) (bytes : List Nat), bytes.length % 2 = 1 →
      m.read_image_bytes bytes = m.read_image_bytes bytes.dropLast) := by
  refine ⟨fun m => rfl, fun m b => rfl, ?_, ?_⟩
  · intro m bytes msg hlen
    rcases bytes with _ | ⟨a, _ | ⟨b, rest⟩⟩
    · simp at hlen
    · simp at hlen
    · obtain ⟨ws, hws⟩ := collectWords_ok (chunksExact2 rest) (chunksExact2_length rest)
      have hc : concatenate_bytes [a, b] = .ok (a * 256 + b) := by
        unfold concatenate_bytes
        rw [if_neg (by simp)]
        rfl
      have heq : m.read_image_bytes (a :: b :: rest) = m.load_words (a * 256 + b) ws 0 := by
        unfold Memory.read_image_bytes
        rw [chunksExact2_cons_cons]
        show Except.bind (concatenate_bytes [a, b]) _ = _
        rw [hc, Except.bind]
        show Except.bind (collectWords (chunksExact2 rest)) _ = _
        rw [hws, Except.bind]
      rw [heq]
      rcases load_words_ok_or_memidx ws m (a * 256 + b) 0 with ⟨m', hm'⟩ | ⟨msg2, hm'⟩
      · rw [hm']
        simp
      · rw [hm']
        simp
  · intro m bytes hodd
    unfold Memory.read_image_bytes
    rw [chunksExact2_dropLast bytes hodd]

/-- CLAIM C7 (witness for the amended theorem): the empty image and a
1-byte image fail with `ConcatenatingBytes`; the 3-byte image
`[0x00, 0x30, 0xAA]` does not fail with `ConcatenatingBytes` and loads
like the 2-byte image `[0x00, 0x30]`. -/
theorem c7_witness :
    mem0.read_image_bytes [] =
      .error (.ConcatenatingBytes ("No valid origin position from image")) ∧
    mem0.read_image_bytes [7] =
      .error (.ConcatenatingBytes ("No valid origin position from image")) ∧
    (2 ≤ ([0x00, 0x30, 0xAA] : List Nat).length ∧
      mem0.read_image_bytes [0x00, 0x30, 0xAA] ≠
        .error (.ConcatenatingBytes ("No valid origin position from image"))) ∧
    (([0x00, 0x30, 0xAA] : List Nat).length % 2 = 1 ∧
      mem0.read_image_bytes [0x00, 0x30, 0xAA] =
        mem0.read_image_bytes ([0x00, 0x30, 0xAA] : List Nat).dropLast) :=
  ⟨c7_odd_length_amended.1 mem0, c7_odd_length_amended.2.1 mem0 7,
    ⟨by decide,
      c7_odd_length_amended.2.2.1 mem0 [0x00, 0x30, 0xAA]
        "No valid origin position from image" (by decide)⟩,
    ⟨by decide, c7_odd_length_amended.2.2.2 mem0 [0x00, 0x30, 0xAA] (by decide)⟩⟩

-- Lemmas for the InvalidCharacter claim.

lemma memRead_oob {i : Nat} (s : St) (hge : 65536 ≤ i) :
    memRead i s =
      (.error (.MemoryIndex ("Invalid out of bounds when reading from memory")), s) := by
  have hne : i ≠ MR_KBSR := by
    unfold MR_KBSR
    omega
  have hge2 : ¬ i < MEMORY_MAX := by
    unfold MEMORY_MAX
    omega
  have h1 : s.memory.mem_read i s.input =
      .error (.MemoryIndex ("Invalid out of bounds when reading from memory")) := by
    unfold Memory.mem_read
    rw [if_neg hne]
    show Except.bind _ _ = _
    rw [Except.bind]
    dsimp only
    rw [if_neg hge2]
  unfold memRead
  rw [h1]

lemma seq_flush_fst (x : M Unit) (s : St) :
    ((x >>= fun _ => flushOut) s).1 = (x s).1 := by
  show (M.bind x _ s).1 = _
  unfold M.bind
  rcases hx : x s with ⟨res, t⟩
  cases res <;> rfl

/-- A memory read in a state whose cells are all below 256 and whose
input bytes are all zero either returns a value below 256 preserving
both properties, or fails with an error other than
`InvalidCharacter`. -/
lemma memRead_small {i : Nat} {s : St} (hmem : ∀ j, s.memory.mem j < 256)
    (hin : ∀ b ∈ s.input, b = 0) :
    (∃ v s', memRead i s = (.ok v, s') ∧ v < 256 ∧
      (∀ j, s'.memory.mem j < 256) ∧ (∀ b ∈ s'.input, b = 0)) ∨
    (∃ e, memRead i s = (.error e, s) ∧ e ≠ .InvalidCharacter) := by
  by_cases hk : i = MR_KBSR
  · subst hk
    cases hin2 : s.input with
    | nil => exact Or.inr ⟨_, memRead_kbsr_nil hin2, by simp⟩
    | cons b rest =>
      have hb0 : b = 0 := hin b (by rw [hin2]; exact List.mem_cons_self b rest)
      subst hb0
      left
      refine ⟨0, _, memRead_kbsr_zero hin2, by norm_num, ?_, ?_⟩
      · intro j
        dsimp only
        split
        · norm_num
        · exact hmem j
      · intro x hx
        exact hin x (by rw [hin2]; exact List.mem_cons_of_mem _ hx)
  · by_cases hlt : i < 65536
    · exact Or.inl ⟨s.memory.mem i, s, memRead_pure s hk hlt, hmem i, hmem, hin⟩
    · exact Or.inr ⟨_, memRead_oob s (by omega), by simp⟩

/-- A memory read in a state whose cells are 16-bit and whose input
bytes are 8-bit either returns a 16-bit value preserving both
properties, or fails with an error other than `InvalidCharacter`. -/
lemma memRead_small16 {i : Nat} {s : St} (hmem : ∀ j, s.memory.mem j < 65536)
    (hin : ∀ b ∈ s.input, b < 256) :
    (∃ v s', memRead i s = (.ok v, s') ∧ v < 65536 ∧
      (∀ j, s'.memory.mem j < 65536) ∧ (∀ b ∈ s'.input, b < 256)) ∨
    (∃ e, memRead i s = (.error e, s) ∧ e ≠ .InvalidCharacter) := by
  by_cases hk : i = MR_KBSR
  · subst hk
    cases hin2 : s.input with
    | nil => exact Or.inr ⟨_, memRead_kbsr_nil hin2, by simp⟩
    | cons b rest =>
      left
      by_cases hb : b = 0
      · subst hb
        refine ⟨0, _, memRead_kbsr_zero hin2, by norm_num, ?_, ?_⟩
        · intro j
          dsimp only
          split
          · norm_num
          · exact hmem j
        · intro x hx
          exact hin x (by rw [hin2]; exact List.mem_cons_of_mem _ hx)
      · refine ⟨32768, _, memRead_kbsr_pos hin2 hb, by norm_num, ?_, ?_⟩
        · intro j
          dsimp only
          have hblt : b < 256 := hin b (by rw [hin2]; exact List.mem_cons_self b rest)
          split
          · omega
          · split
            · norm_num
            · exact hmem j
        · intro x hx
          exact hin x (by rw [hin2]; exact List.mem_cons_of_mem _ hx)
  · by_cases hlt : i < 65536
    · exact Or.inl ⟨s.memory.mem i, s, memRead_pure s hk hlt, hmem i, hmem, hin⟩
    · exact Or.inr ⟨_, memRead_oob s (by omega), by simp⟩

lemma putsLoop_no_invalid (address ch : Nat) :
    ∀ s : St, (∀ j, s.memory.mem j < 256) → (∀ b ∈ s.input, b = 0) → ch < 256 →
    (putsLoop address ch s).1 ≠ .error .InvalidCharacter := by
  induction address, ch using putsLoop.induct with
  | case1 a =>
    intro s _ _ _
    rw [putsLoop]
    simp [M.pure]
  | case2 a ch h0 hbig =>
    intro s _ _ hch
    exact absurd hbig (by omega)
  | case3 a ch h0 hbig ih =>
    intro s hmem hin hch
    rw [putsLoop, if_neg h0, if_neg hbig]
    rw [M.bind_ok (printByte_apply ch s)]
    by_cases hlt : a < 65535
    · rw [dif_pos hlt]
      rcases memRead_small (i := a + 1) (s := { s with output := s.output ++ [ch] })
          hmem hin with ⟨v, s', hm, hv, hmem', hin'⟩ | ⟨e, hm, hne⟩
      · rw [M.bind_ok hm]
        exact ih hlt v s' hmem' hin' hv
      · rw [M.bind_err hm]
        simp only [ne_eq, Except.error.injEq]
        exact hne
    · rw [dif_neg hlt]
      simp [throwE]

lemma putspLoop_no_invalid (address ch : Nat) :
    ∀ s : St, (∀ j, s.memory.mem j < 65536) → (∀ b ∈ s.input, b < 256) → ch < 65536 →
    (putspLoop address ch s).1 ≠ .error .InvalidCharacter := by
  induction address, ch using putspLoop.induct with
  | case1 a =>
    intro s _ _ _
    rw [putspLoop]
    simp [M.pure]
  | case2 a ch h0 hbig =>
    intro s _ _ _
    have h := Nat.and_le_right (n := ch) (m := 255)
    exact absurd hbig (by omega)
  | case3 a ch h0 hbig ih =>
    intro s hmem hin hch
    rw [putspLoop, if_neg h0, if_neg hbig]
    rw [M.bind_ok (printByte_apply (ch &&& 255) s)]
    have hsh : ¬ 256 ≤ ch >>> 8 := by
      have h8 : ch >>> 8 = ch / 256 := by
        rw [Nat.shiftRight_eq_div_pow]
      omega
    rw [if_neg hsh]
    rw [M.bind_ok (printByte_apply (ch >>> 8) _)]
    by_cases hlt : a < 65535
    · rw [dif_pos hlt]
      rcases memRead_small16 (i := a + 1)
          (s := { s with output := s.output ++ [ch &&& 255] ++ [ch >>> 8] })
          hmem hin with ⟨v, s', hm, hv, hmem', hin'⟩ | ⟨e, hm, hne⟩
      · rw [M.bind_ok hm]
        exact ih hlt v s' hmem' hin' hv
      · rw [M.bind_err hm]
        simp only [ne_eq, Except.error.injEq]
        exact hne
    · rw [dif_neg hlt]
      simp [throwE]

/-- CLAIM C8 (counterexample).  PUTSP does not fail on a word exceeding
255: with `mem[0x4000] = 0x0234` (≥ 256, terminated by a zero word) it
succeeds, printing the low byte then the high byte — its two per-step
narrowings are `word & 0xFF` and `word >> 8`, which never exceed 255
for a 16-bit word, so `InvalidCharacter` is unreachable in PUTSP. -/
def stC8 : St :=
  { registers := fun _ => 0x4000
    pc := 0x3000
    cond := .Zro
    running := false
    memory := ⟨fun j => if j = 0x4000 then 0x0234 else 0⟩
    input := []
    output := [] }

theorem c8_counterexample :
    256 ≤ stC8.memory.mem (stC8.registers 0) ∧ (VM.putsp stC8).1 = .ok () := by
  refine ⟨by decide, ?_⟩
  unfold VM.putsp
  rw [M.bind_ok (getRegister_apply stC8 (by norm_num))]
  rw [M.bind_ok (memRead_pure stC8 (by decide) (by decide))]
  rw [seq_flush_fst]
  rw [putspLoop]
  rw [if_neg (by decide), if_neg (by decide)]
  rw [M.bind_ok (printByte_apply _ _)]
  rw [if_neg (by decide)]
  rw [M.bind_ok (printByte_apply _ _)]
  rw [dif_pos (by decide)]
  rw [M.bind_ok (memRead_pure _ (by decide) (by decide))]
  rw [putspLoop]
  rw [if_pos (by decide)]
  rfl

lemma putsLoop_step_big (address ch : Nat) (s : St) (hbig : 256 ≤ ch) :
    putsLoop address ch s = (.error .InvalidCharacter, s) := by
  rw [putsLoop, if_neg (by omega), if_pos hbig]
  rfl

/-- A PUTS walk whose first `k` words are nonzero bytes and whose word
at distance `k` exceeds 255 (all below the keyboard-status address)
ends in `InvalidCharacter`. -/
lemma putsLoop_hits_big (k : Nat) : ∀ (a : Nat) (s : St) (ch : Nat),
    (∀ t, t < k → 0 < s.memory.mem (a + t) ∧ s.memory.mem (a + t) < 256) →
    256 ≤ s.memory.mem (a + k) →
    a + k < MR_KBSR →
    ch = s.memory.mem a →
    (putsLoop a ch s).1 = .error .InvalidCharacter := by
  induction k with
  | zero =>
    intro a s ch hsmall hbig hlt hch
    have hbig' : 256 ≤ s.memory.mem a := by simpa using hbig
    rw [putsLoop_step_big a ch s (by omega)]
  | succ k ih =>
    intro a s ch hsmall hbig hlt hch
    have h0 : 0 < s.memory.mem (a + 0) ∧ s.memory.mem (a + 0) < 256 :=
      hsmall 0 (Nat.succ_pos k)
    have h0' : 0 < s.memory.mem a ∧ s.memory.mem a < 256 := by simpa using h0
    have hlt' : a + (k + 1) < 65024 := by
      unfold MR_KBSR at hlt
      omega
    rw [putsLoop, if_neg (by omega), if_neg (by omega)]
    rw [M.bind_ok (printByte_apply ch s)]
    rw [dif_pos (by omega : a < 65535)]
    rw [M.bind_ok (memRead_pure { s with output := s.output ++ [ch] }
      (show a + 1 ≠ MR_KBSR from by unfold MR_KBSR; omega) (by omega))]
    exact ih (a + 1) { s with output := s.output ++ [ch] } _
      (fun t ht => by
        have heq : a + 1 + t = a + (t + 1) := by omega
        rw [heq]
        exact hsmall (t + 1) (by omega))
      (by
        have heq : a + 1 + k = a + (k + 1) := by omega
        rw [heq]
        exact hbig)
      (by unfold MR_KBSR; omega)
      rfl

/-- CLAIM C8 (amended).  OUT fails with `InvalidCharacter` exactly when
R0 exceeds 255 (otherwise it prints R0's low byte).  For PUTS, the
per-word narrowing is the sole source of `InvalidCharacter`: every loop
step whose current word exceeds 255 fails with `InvalidCharacter`
leaving the state unchanged — in particular, when the first word of the
walk exceeds 255 PUTS fails immediately, and a walk whose first `k`
words are nonzero bytes and whose word at distance `k` exceeds 255
(below the keyboard-status address) makes PUTS fail with
`InvalidCharacter` — and PUTS raises no `InvalidCharacter` when every
memory word is below 256 and keyboard probes deliver zero bytes.
PUTSP never raises `InvalidCharacter` for 16-bit words, since its
per-step narrowings are `word & 0xFF` and `word >> 8`, both always at
most 255. -/
theorem c8_invalid_character_amended :
    (∀ s : St, 256 ≤ s.registers 0 → VM.out s = (.error .InvalidCharacter, s)) ∧
    (∀ s : St, s.registers 0 < 256 →
      VM.out s = (.ok (), { s with output := s.output ++ [s.registers 0] })) ∧
    (∀ (address ch : Nat) (s : St), 256 ≤ ch →
      putsLoop address ch s = (.error .InvalidCharacter, s)) ∧
    (∀ s : St, s.registers 0 ≠ MR_KBSR → s.registers 0 < 65536 →
      256 ≤ s.memory.mem (s.registers 0) →
      VM.puts s = (.error .InvalidCharacter, s)) ∧
    (∀ (s : St) (k : Nat),
      (∀ t, t < k → 0 < s.memory.mem (s.registers 0 + t) ∧
        s.memory.mem (s.registers 0 + t) < 256) →
      256 ≤ s.memory.mem (s.registers 0 + k) →
      s.registers 0 + k < MR_KBSR →
      (VM.puts s).1 = .error .InvalidCharacter) ∧
    (∀ s : St, (∀ j, s.memory.mem j < 256) → (∀ b ∈ s.input, b = 0) →
      (VM.puts s).1 ≠ .error .InvalidCharacter) ∧
    (∀ s : St, (∀ j, s.memory.mem j < 65536) → (∀ b ∈ s.input, b < 256) →
      (VM.putsp s).1 ≠ .error .InvalidCharacter) := by
  refine ⟨?_, ?_, ?_, ?_, ?_, ?_, ?_⟩
  · intro s h
    unfold VM.out
    rw [M.bind_ok (getRegister_apply s (by norm_num))]
    rw [if_pos h]
    rfl
  · intro s h
    unfold VM.out
    rw [M.bind_ok (getRegister_apply s (by norm_num))]
    rw [if_neg (by omega)]
    rw [M.bind_ok (printByte_apply _ s)]
    rfl
  · intro address ch s h
    exact putsLoop_step_big address ch s h
  · intro s hne hlt hbig
    unfold VM.puts
    rw [M.bind_ok (getRegister_apply s (by norm_num))]
    rw [M.bind_ok (memRead_pure s hne hlt)]
    rw [M.bind_err (putsLoop_step_big (s.registers 0) (s.memory.mem (s.registers 0)) s hbig)]
  · intro s k hsmall hbig hlt
    unfold VM.puts
    rw [M.bind_ok (getRegister_apply s (by norm_num))]
    rw [M.bind_ok (memRead_pure s
      (show s.registers 0 ≠ MR_KBSR from by unfold MR_KBSR at hlt ⊢; omega)
      (by unfold MR_KBSR at hlt; omega))]
    rw [seq_flush_fst]
    exact putsLoop_hits_big k (s.registers 0) s _ hsmall hbig hlt rfl
  · intro s hmem hin
    unfold VM.puts
    rw [M.bind_ok (getRegister_apply s (by norm_num))]
    rcases memRead_small (i := s.registers 0) hmem hin with
      ⟨v, s', hm, hv, hmem', hin'⟩ | ⟨e, hm, hne⟩
    · rw [M.bind_ok hm]
      rw [seq_flush_fst]
      exact putsLoop_no_invalid (s.registers 0) v s' hmem' hin' hv
    · rw [M.bind_err hm]
      simp only [ne_eq, Except.error.injEq]
      exact hne
  · intro s hmem hin
    unfold VM.putsp
    rw [M.bind_ok (getRegister_apply s (by norm_num))]
    rcases memRead_small16 (i := s.registers 0) hmem hin with
      ⟨v, s', hm, hv, hmem', hin'⟩ | ⟨e, hm, hne⟩
    · rw [M.bind_ok hm]
      rw [seq_flush_fst]
      exact putspLoop_no_invalid (s.registers 0) v s' hmem' hin' hv
    · rw [M.bind_err hm]
      simp only [ne_eq, Except.error.injEq]
      exact hne

/-- State whose PUTS walk reads the byte 65 at address 0 and then the
word 300 at address 1: the offending word is not the first one. -/
def stC8b : St :=
  { st0 with memory := ⟨fun j => if j = 0 then 65 else if j = 1 then 300 else 0⟩ }

/-- CLAIM C8 (witness): OUT fails on R0 = 300 and succeeds on R0 = 65;
a PUTS loop step on the word 300 fails; PUTS fails on a first word of
300 and also when the offending word 300 comes only second (after the
byte 65); PUTS and PUTSP raise no `InvalidCharacter` on the all-zero
initial state. -/
theorem c8_witness :
    (256 ≤ ({ st0 with registers := fun _ => 300 } : St).registers 0 ∧
      VM.out { st0 with registers := fun _ => 300 } =
        (.error .InvalidCharacter, { st0 with registers := fun _ => 300 })) ∧
    (({ st0 with registers := fun _ => 65 } : St).registers 0 < 256 ∧
      VM.out { st0 with registers := fun _ => 65 } =
        (.ok (), { ({ st0 with registers := fun _ => 65 } : St) with
          output := st0.output ++ [({ st0 with registers := fun _ => 65 } : St).registers 0] })) ∧
    ((256 : Nat) ≤ 300 ∧ putsLoop 0 300 st0 = (.error .InvalidCharacter, st0)) ∧
    (256 ≤ ({ st0 with memory := ⟨fun j => if j = 0 then 300 else 0⟩ } : St).memory.mem 0 ∧
      VM.puts { st0 with memory := ⟨fun j => if j = 0 then 300 else 0⟩ } =
        (.error .InvalidCharacter, { st0 with memory := ⟨fun j => if j = 0 then 300 else 0⟩ })) ∧
    ((∀ t, t < 1 → 0 < stC8b.memory.mem (stC8b.registers 0 + t) ∧
        stC8b.memory.mem (stC8b.registers 0 + t) < 256) ∧
      256 ≤ stC8b.memory.mem (stC8b.registers 0 + 1) ∧
      stC8b.registers 0 + 1 < MR_KBSR ∧
      (VM.puts stC8b).1 = .error .InvalidCharacter) ∧
    (VM.puts st0).1 ≠ .error .InvalidCharacter ∧
    (VM.putsp st0).1 ≠ .error .InvalidCharacter :=
  ⟨⟨by decide, c8_invalid_character_amended.1 _ (by decide)⟩,
    ⟨by decide, c8_invalid_character_amended.2.1 _ (by decide)⟩,
    ⟨by decide, c8_invalid_character_amended.2.2.1 0 300 st0 (by decide)⟩,
    ⟨by decide, c8_invalid_character_amended.2.2.2.1 _ (by decide) (by decide) (by decide)⟩,
    ⟨by decide, by decide, by decide,
      c8_invalid_character_amended.2.2.2.2.1 stC8b 1 (by decide) (by decide) (by decide)⟩,
    c8_invalid_character_amended.2.2.2.2.2.1 st0 (fun j => by norm_num [st0, mem0])
      (fun b hb => by simp [st0] at hb),
    c8_invalid_character_amended.2.2.2.2.2.2 st0 (fun j => by norm_num [st0, mem0])
      (fun b hb => by simp [st0] at hb)⟩
